import Mathlib

/-!
Detective Quest: clue ledger, suspect index, exploration and verdict.

A shallow embedding of `src/detetive_Quest.c`.

* A C string is the list of its bytes before the terminating NUL (`CStr`).
  A `NULL` string argument is treated by every function of the source exactly
  like the empty text (`!pista || pista[0] == 0`), so it is represented by `[]`.
* A pointer to a heap-allocated tree node is the tree itself, `nil` being `NULL`.
* `strncpy (dst, src, N - 1); dst[N - 1] = 0` stores the first `N - 1` bytes of `src`.
* Standard input is the sequence of the results of the successive `fgets` calls;
  when it is used up, `fgets` returns `NULL`. `leituras` gives that sequence for the
  bytes of standard input.
-/

namespace DetetiveQuest

/-! ## Constants and strings -/

/-- `#define MAX_NOME 64` -/
def MAX_NOME : Nat := 64

/-- `#define MAX_PISTA 128` -/
def MAX_PISTA : Nat := 128

/-- `#define HASH_TABLE_SIZE 101` -/
def HASH_TABLE_SIZE : Nat := 101

/-- A C string: its bytes up to, and without, the terminating NUL. -/
abbrev CStr := List Nat

/-- The bytes of an ASCII string literal of the source. -/
def cstr (s : String) : CStr := s.data.map Char.toNat

/-- `strcmp` of the C library, by its sign: negative, zero or positive as the first
text is byte-wise lexicographically below, equal to or above the second. -/
def strcmp : CStr → CStr → Int
  | [], [] => 0
  | [], _ :: _ => -1
  | _ :: _, [] => 1
  | a :: as, b :: bs => if a < b then -1 else if b < a then 1 else strcmp as bs

/-- What `strncpy (dst, src, n - 1); dst[n - 1] = 0` leaves in a buffer `char dst[n]`. -/
def strncpy (n : Nat) (src : CStr) : CStr := src.take (n - 1)

/-- `tolower` in the "C" locale (the program never changes the locale). -/
def tolower (c : Nat) : Nat := if 65 ≤ c ∧ c ≤ 90 then c + 32 else c

/-! ## The clue ledger (binary search tree of clues) -/

/-- `PistaNode *`: `nil` is `NULL`, `node pista esq dir` a node of the tree. -/
inductive PistaNode where
  | nil : PistaNode
  | node (pista : CStr) (esq dir : PistaNode) : PistaNode
  deriving DecidableEq

/-- `inserirPista` (lines 83-107). -/
def inserirPista (raiz : PistaNode) (pista : CStr) : PistaNode :=
  if pista = [] then raiz
  else
    match raiz with
    | .nil => .node (strncpy MAX_PISTA pista) .nil .nil
    | .node k esq dir =>
      let cmp := strcmp pista k
      if cmp < 0 then .node k (inserirPista esq pista) dir
      else if cmp > 0 then .node k esq (inserirPista dir pista)
      else .node k esq dir

/-- `exibirPistas` (lines 110-115): the clues printed, in printing order. -/
def exibirPistas : PistaNode → List CStr
  | .nil => []
  | .node k esq dir => exibirPistas esq ++ k :: exibirPistas dir

/-- `bst_traverse_inorder` (lines 129-134): the callback threads the context. -/
def bst_traverse_inorder {σ : Type} (raiz : PistaNode) (cb : CStr → σ → σ) (ctx : σ) : σ :=
  match raiz with
  | .nil => ctx
  | .node k esq dir =>
    let ctx1 := bst_traverse_inorder esq cb ctx
    let ctx2 := cb k ctx1
    bst_traverse_inorder dir cb ctx2

/-- The ledger after a sequence of `inserirPista` calls from the empty ledger. -/
def inserirTodas (pistas : List CStr) : PistaNode :=
  pistas.foldl inserirPista .nil

/-! ## The suspect index (hash table clue -> suspect) -/

/-- `HashEntry`: one link of a bucket chain (the chain itself is the list). -/
structure HashEntry where
  pista : CStr
  suspeito : CStr
  deriving DecidableEq

/-- `HashTable`: `HashEntry *buckets[HASH_TABLE_SIZE]`, each bucket a chain, head first. -/
abbrev HashTable := Fin HASH_TABLE_SIZE → List HashEntry

/-- The accumulator loop of `hash_string` (lines 142-145) on `unsigned long`, taken to have
64 bits (LP64): `hash = ((hash << 5) + hash) + c` for each byte, each operation wrapping. -/
def hash_acc (hash : Nat) : CStr → Nat
  | [] => hash
  | c :: str => hash_acc ((((hash * 2 ^ 5) % 2 ^ 64 + hash) % 2 ^ 64 + c) % 2 ^ 64) str

/-- `hash_string` (lines 141-147). -/
def hash_string (str : CStr) : Nat := hash_acc 5381 str % HASH_TABLE_SIZE

/-- The bucket `ht->buckets[hash_string (pista)]` as an index of the array. -/
def bucketIdx (pista : CStr) : Fin HASH_TABLE_SIZE :=
  ⟨hash_string pista, Nat.mod_lt _ (by decide)⟩

/-- `initHash` (lines 210-212): every bucket is `NULL`. -/
def initHash : HashTable := fun _ => []

/-- The `while (cur)` loop of `inserirNaHash` (lines 157-165) over one chain: the chain with
the suspect of the first entry whose key equals `pista` overwritten, or `none` when the loop
runs off the end of the chain. -/
def sobrescrever (pista suspeito : CStr) : List HashEntry → Option (List HashEntry)
  | [] => none
  | cur :: prox =>
    if strcmp cur.pista pista = 0 then
      some ({ cur with suspeito := strncpy MAX_NOME suspeito } :: prox)
    else
      (sobrescrever pista suspeito prox).map (fun resto => cur :: resto)

/-- `ht->buckets[idx] = cadeia`. -/
def setBucket (ht : HashTable) (idx : Fin HASH_TABLE_SIZE) (cadeia : List HashEntry) :
    HashTable :=
  fun i => if i = idx then cadeia else ht i

/-- `inserirNaHash` (lines 153-178). -/
def inserirNaHash (ht : HashTable) (pista suspeito : CStr) : HashTable :=
  if pista = [] then ht
  else
    let idx := bucketIdx pista
    match sobrescrever pista suspeito (ht idx) with
    | some cadeia => setBucket ht idx cadeia
    | none =>
      let novo : HashEntry :=
        { pista := strncpy MAX_PISTA pista, suspeito := strncpy MAX_NOME suspeito }
      setBucket ht idx (novo :: ht idx)

/-- The `while (cur)` loop of `encontrarSuspeito` (lines 188-192) over one chain. -/
def procurar (pista : CStr) : List HashEntry → Option CStr
  | [] => none
  | cur :: prox => if strcmp cur.pista pista = 0 then some cur.suspeito else procurar pista prox

/-- `encontrarSuspeito` (lines 184-194): `none` is the `NULL` result. -/
def encontrarSuspeito (ht : HashTable) (pista : CStr) : Option CStr :=
  if pista = [] then none
  else procurar pista (ht (bucketIdx pista))

/-- The table after a sequence of `inserirNaHash (pista, suspeito)` calls from `initHash`. -/
def popular (calls : List (CStr × CStr)) : HashTable :=
  calls.foldl (fun ht c => inserirNaHash ht c.1 c.2) initHash

/-! ## The verdict -/

/-- `ContadorContext` (lines 283-287). The counter is an `int` in the source; it is counted
here without a bound (it cannot exceed the number of entries of the ledger). -/
structure ContadorContext where
  acusado : CStr
  ht : HashTable
  contador : Nat

/-- `contador_callback` (lines 289-295). -/
def contador_callback (pista : CStr) (ctx : ContadorContext) : ContadorContext :=
  match encontrarSuspeito ctx.ht pista with
  | some sus =>
    if strcmp sus ctx.acusado = 0 then { ctx with contador := ctx.contador + 1 } else ctx
  | none => ctx

/-- `verificarSuspeitoFinal` (lines 297-305). -/
def verificarSuspeitoFinal (arvorePistas : PistaNode) (ht : HashTable) (acusado : CStr) : Nat :=
  match arvorePistas with
  | .nil => 0
  | raiz =>
    let ctx : ContadorContext := { acusado := acusado, ht := ht, contador := 0 }
    (bst_traverse_inorder raiz contador_callback ctx).contador

/-- The two outcomes printed by `main` (lines 394-398). -/
inductive Veredito where
  | sustentada
  | fragil
  deriving DecidableEq

/-- The decision of `main` (lines 394-398): `qtd >= 2` sustains the accusation. -/
def veredito (qtd : Nat) : Veredito :=
  if qtd ≥ 2 then .sustentada else .fragil

/-! ## The mansion and its exploration -/

/-- `Sala *`: `nil` is `NULL`, `node nome pista esq dir` a room (`pista` may be empty). -/
inductive Sala where
  | nil : Sala
  | node (nome pista : CStr) (esq dir : Sala) : Sala
  deriving DecidableEq

/-- The pointer test `s == NULL`. -/
def Sala.isNull : Sala → Bool
  | .nil => true
  | .node _ _ _ _ => false

/-- `s->nome` (of a non-`NULL` room). -/
def Sala.nome : Sala → CStr
  | .nil => []
  | .node nome _ _ _ => nome

/-- `s->pista` (of a non-`NULL` room). -/
def Sala.pista : Sala → CStr
  | .nil => []
  | .node _ pista _ _ => pista

/-- `s->esq` (of a non-`NULL` room). -/
def Sala.esq : Sala → Sala
  | .nil => .nil
  | .node _ _ esq _ => esq

/-- `s->dir` (of a non-`NULL` room). -/
def Sala.dir : Sala → Sala
  | .nil => .nil
  | .node _ _ _ dir => dir

/-- The lines `explorarSalas` prints, one constructor for each `printf` (or group). -/
inductive Evento where
  /-- line 231, "Voce entrou em: ..." -/
  | entrou (nome : CStr)
  /-- line 233, "Pista encontrada: ..." -/
  | pistaEncontrada (pista : CStr)
  /-- line 236, "Nenhuma pista nesta sala." -/
  | nenhumaPista
  /-- lines 242-243, "Esta sala nao possui caminhos (no folha) ..." -/
  | salaFolha
  /-- lines 251-257, the menu: each side names the child, or is "(bloqueado)" for `none` -/
  | menu (esq dir : Option CStr)
  /-- line 262, "Caminho a esquerda indisponivel." -/
  | esquerdaIndisponivel
  /-- line 265, "Caminho a direita indisponivel." -/
  | direitaIndisponivel
  /-- lines 246 and 267, "Exploracao encerrada pelo jogador." -/
  | encerradaPeloJogador
  /-- line 270, "Comando invalido. Digite e, d ou s." -/
  | comandoInvalido
  deriving DecidableEq

/-- The state of `explorarSalas` when its loop is left: the room `atual` points to, the ledger
`*arvorePistas`, what is left of standard input and what was printed. -/
structure Exploracao where
  atual : Sala
  arvorePistas : PistaNode
  stdin : List CStr
  saida : List Evento
  deriving DecidableEq

/-- The code of a character constant. -/
def ch (c : Char) : Nat := c.toNat

/-- `linha[0]` after `fgets (linha, ...)`: the first byte read (the NUL if nothing was). -/
def primeiro (linha : CStr) : Nat := linha.headD 0

/-- Entering a room, the ledger (lines 232-237): the clue, if any, goes to the ledger. -/
def entrarSala (pista : CStr) (arvorePistas : PistaNode) : PistaNode :=
  if pista ≠ [] then inserirPista arvorePistas pista else arvorePistas

/-- Entering a room, the output (lines 231-237). -/
def anunciarSala (nome pista : CStr) : List Evento :=
  if pista ≠ [] then [.entrou nome, .pistaEncontrada pista] else [.entrou nome, .nenhumaPista]

/-- The menu line for one side (lines 252-255). -/
def opcao (filho : Sala) : Option CStr :=
  if filho.isNull then none else some filho.nome

/-- The `while (atual)` loop of `explorarSalas` (lines 230-272). Each turn that does not leave
the loop takes one `fgets` result from standard input. -/
def explorarLoop (stdin : List CStr) (atual : Sala) (arvorePistas : PistaNode)
    (saida : List Evento) : Exploracao :=
  match atual with
  | .nil => ⟨atual, arvorePistas, stdin, saida⟩
  | .node nome pista esq dir =>
    let saida := saida ++ anunciarSala nome pista
    let arvorePistas := entrarSala pista arvorePistas
    if esq.isNull ∧ dir.isNull then
      let saida := saida ++ [.salaFolha]
      match stdin with
      | [] => ⟨atual, arvorePistas, [], saida⟩
      | linha :: resto =>
        if tolower (primeiro linha) = ch 's' then
          ⟨atual, arvorePistas, resto, saida ++ [.encerradaPeloJogador]⟩
        else ⟨atual, arvorePistas, resto, saida⟩
    else
      let saida := saida ++ [.menu (opcao esq) (opcao dir)]
      match stdin with
      | [] => ⟨atual, arvorePistas, [], saida⟩
      | linha :: resto =>
        let c := tolower (primeiro linha)
        if c = ch 'e' then
          if ¬ esq.isNull then explorarLoop resto esq arvorePistas saida
          else explorarLoop resto atual arvorePistas (saida ++ [.esquerdaIndisponivel])
        else if c = ch 'd' then
          if ¬ dir.isNull then explorarLoop resto dir arvorePistas saida
          else explorarLoop resto atual arvorePistas (saida ++ [.direitaIndisponivel])
        else if c = ch 's' then
          ⟨atual, arvorePistas, resto, saida ++ [.encerradaPeloJogador]⟩
        else explorarLoop resto atual arvorePistas (saida ++ [.comandoInvalido])

/-- `explorarSalas` (lines 222-273); line 228 prints the banner before the loop, which is not
recorded. A `NULL` root returns at once. -/
def explorarSalas (raiz : Sala) (arvorePistas : PistaNode) (stdin : List CStr) : Exploracao :=
  if raiz.isNull then ⟨raiz, arvorePistas, stdin, []⟩
  else explorarLoop stdin raiz arvorePistas []

/-! ## Specification predicates -/

/-- The order in which `bst_traverse_inorder` hands the clues to its callback. -/
def visitadas (raiz : PistaNode) : List CStr :=
  bst_traverse_inorder raiz (fun pista ctx => ctx ++ [pista]) []

/-- Strictly increasing under byte-wise lexicographic comparison. -/
def Crescente (l : List CStr) : Prop := l.Pairwise (fun a b => strcmp a b < 0)

instance (l : List CStr) : Decidable (Crescente l) :=
  inferInstanceAs (Decidable (l.Pairwise (fun a b => strcmp a b < 0)))

/-- Search-tree order: the clues on the left are below the node, those on the right above. -/
def Ordenada : PistaNode → Prop
  | .nil => True
  | .node k esq dir =>
    Ordenada esq ∧ Ordenada dir ∧
      (∀ x ∈ exibirPistas esq, strcmp x k < 0) ∧ (∀ x ∈ exibirPistas dir, strcmp k x < 0)

/-- `Ordenada` can be checked on a given tree. -/
def Ordenada.dec : (t : PistaNode) → Decidable (Ordenada t)
  | .nil => isTrue trivial
  | .node k esq dir =>
    have := Ordenada.dec esq
    have := Ordenada.dec dir
    inferInstanceAs (Decidable (Ordenada esq ∧ Ordenada dir ∧
      (∀ x ∈ exibirPistas esq, strcmp x k < 0) ∧ (∀ x ∈ exibirPistas dir, strcmp k x < 0)))

instance (t : PistaNode) : Decidable (Ordenada t) := Ordenada.dec t

/-- What every ledger built by `inserirPista` satisfies, whatever the length of the texts
inserted: stored clues fit the buffer, the clues on the left are below the node and those on
the right are not below it. -/
def QuaseOrdenada : PistaNode → Prop
  | .nil => True
  | .node k esq dir =>
    QuaseOrdenada esq ∧ QuaseOrdenada dir ∧ k.length < MAX_PISTA ∧
      (∀ x ∈ exibirPistas esq, strcmp x k < 0) ∧ (∀ x ∈ exibirPistas dir, 0 ≤ strcmp x k)

/-- `QuaseOrdenada` can be checked on a given tree. -/
def QuaseOrdenada.dec : (t : PistaNode) → Decidable (QuaseOrdenada t)
  | .nil => isTrue trivial
  | .node k esq dir =>
    have := QuaseOrdenada.dec esq
    have := QuaseOrdenada.dec dir
    inferInstanceAs (Decidable (QuaseOrdenada esq ∧ QuaseOrdenada dir ∧ k.length < MAX_PISTA ∧
      (∀ x ∈ exibirPistas esq, strcmp x k < 0) ∧ (∀ x ∈ exibirPistas dir, 0 ≤ strcmp x k)))

instance (t : PistaNode) : Decidable (QuaseOrdenada t) := QuaseOrdenada.dec t

/-- The hash as the specification words it, with an accumulator that never wraps: start at
5381, `accumulator * 33 + byte` for each byte in order, then the remainder modulo 101. -/
def hash_spec (str : CStr) : Nat :=
  str.foldl (fun acc byte => acc * 33 + byte) 5381 % 101

/-- The same with the accumulator reduced modulo `2 ^ 64` after each byte. -/
def hash_wrap (str : CStr) : Nat :=
  str.foldl (fun acc byte => (acc * 33 + byte) % 2 ^ 64) 5381 % 101

/-! ## Rooms entered by the exploration -/

/-- The bounds of the buffers `char nome[MAX_NOME]` and `char pista[MAX_PISTA]` of a room,
each holding its terminating NUL, for the room and all rooms below it. -/
def Sala.cabe : Sala → Bool
  | .nil => true
  | .node nome pista esq dir =>
    decide (nome.length < MAX_NOME) && decide (pista.length < MAX_PISTA) && esq.cabe && dir.cabe

/-- The room reached from `s` by the given turns, first turn first: `false` follows `esq`,
`true` follows `dir`. A room of the tree is identified by the turns that lead to it. -/
def Sala.em : Sala → List Bool → Sala
  | s, [] => s
  | s, b :: resto => Sala.em (if b then s.dir else s.esq) resto

/-- The rooms the loop of `explorarSalas` (lines 230-272) enters, in order of entry, each
given by the turns that lead to it from the room where the loop starts; a room entered again
after a blocked or invalid command is listed again. Follows the control flow of
`explorarLoop`. -/
def percurso (stdin : List CStr) (atual : Sala) : List (List Bool) :=
  match atual with
  | .nil => []
  | .node _ _ esq dir =>
    if esq.isNull ∧ dir.isNull then [[]]
    else
      match stdin with
      | [] => [[]]
      | linha :: resto =>
        let c := tolower (primeiro linha)
        if c = ch 'e' then
          if ¬ esq.isNull then [] :: (percurso resto esq).map (fun p => false :: p)
          else [] :: percurso resto atual
        else if c = ch 'd' then
          if ¬ dir.isNull then [] :: (percurso resto dir).map (fun p => true :: p)
          else [] :: percurso resto atual
        else if c = ch 's' then [[]]
        else [] :: percurso resto atual

/-- The line read at a room with children `esq` and `dir` leaves the loop in that room: a
turn towards a missing child, or a first byte that is no command. -/
def Fica (linha : CStr) (esq dir : Sala) : Prop :=
  (tolower (primeiro linha) = ch 'e' ∧ esq.isNull = true) ∨
    (tolower (primeiro linha) = ch 'd' ∧ dir.isNull = true) ∨
    (tolower (primeiro linha) ≠ ch 'e' ∧ tolower (primeiro linha) ≠ ch 'd' ∧
      tolower (primeiro linha) ≠ ch 's')

/-- The names of the rooms announced in the output ("Voce entrou em: ..."), in order. -/
def salasAnunciadas (saida : List Evento) : List CStr :=
  saida.filterMap (fun e => match e with
    | .entrou nome => some nome
    | _ => none)

/-- The ledgers the loop of `explorarSalas` can end with when it is at room `s` with the
ledger `arv`: the one reached on entering `s`, and those it can end with from either child. -/
def finais : Sala → PistaNode → List PistaNode
  | .nil, arv => [arv]
  | .node _ pista esq dir, arv =>
    entrarSala pista arv ::
      (finais esq (entrarSala pista arv) ++ finais dir (entrarSala pista arv))

/-! ## The mansion and the bindings of `main` -/

/-- `criarSala` (lines 49-64). -/
def criarSala (nome pista : CStr) : Sala :=
  .node (strncpy MAX_NOME nome) (if pista ≠ [] then strncpy MAX_PISTA pista else []) .nil .nil

/-- The assignment `s->esq = filho`. -/
def Sala.comEsq (s filho : Sala) : Sala :=
  match s with
  | .nil => .nil
  | .node nome pista _ dir => .node nome pista filho dir

/-- The assignment `s->dir = filho`. -/
def Sala.comDir (s filho : Sala) : Sala :=
  match s with
  | .nil => .nil
  | .node nome pista esq _ => .node nome pista esq filho

/-- The mansion `hall` points to after lines 334-357 of `main`. The source creates the eight
rooms and then links them through pointers; here the rooms are linked from the leaves up,
which gives the same tree. -/
def mansao : Sala :=
  let biblioteca :=
    (criarSala (cstr "Biblioteca") (cstr "Livro com anotacoes na margem")).comEsq .nil
  let escritorio := criarSala (cstr "Escritorio") (cstr "Caneta com tinta vermelha")
  let quarto := criarSala (cstr "Quarto") (cstr "Fio de tecido azul")
  let jardim := criarSala (cstr "Jardim") (cstr "Pegadas que levam ao portao")
  let sotao := (criarSala (cstr "Sotao") (cstr "Chave enferrujada")).comDir jardim
  let salaEstar :=
    ((criarSala (cstr "Sala de Estar") (cstr "Retrato pendurado torto")).comEsq
      biblioteca).comDir escritorio
  let cozinha :=
    ((criarSala (cstr "Cozinha") (cstr "Vasilha quebrada no chao")).comEsq quarto).comDir sotao
  ((criarSala (cstr "Hall de Entrada") (cstr "Pegadas sujas perto da janela")).comEsq
    salaEstar).comDir cozinha

/-- The table `ht` after lines 362-373 of `main`. -/
def tabela : HashTable :=
  popular [(cstr "Pegadas sujas perto da janela", cstr "Sr. Black"),
    (cstr "Retrato pendurado torto", cstr "Sra. White"),
    (cstr "Vasilha quebrada no chao", cstr "Jovem Green"),
    (cstr "Livro com anotacoes na margem", cstr "Prof. Plum"),
    (cstr "Caneta com tinta vermelha", cstr "Sra. White"),
    (cstr "Fio de tecido azul", cstr "Jovem Green"),
    (cstr "Chave enferrujada", cstr "Sr. Black"),
    (cstr "Pegadas que levam ao portao", cstr "Sr. Black")]

/-! ## Standard input as bytes -/

/-- `char linha[32]` (line 226): the size both `fgets` calls of `explorarSalas` pass. -/
def TAM_LINHA : Nat := 32

/-- What one call of `fgets` with room for `k` bytes stores and the input it leaves, when
there is input: bytes are taken in order until `k` are stored, a newline has been stored, or
the input ends. -/
def fgetsLer : Nat → List Nat → CStr × List Nat
  | 0, stdin => ([], stdin)
  | _ + 1, [] => ([], [])
  | k + 1, b :: bs =>
    if b = 10 then ([b], bs) else (b :: (fgetsLer k bs).1, (fgetsLer k bs).2)

/-- `fgets (buf, n, stdin)` of the C library on the bytes of standard input: the text stored
(at most `n - 1` bytes, ending with the newline if one was read) and the input left; `none` is
the `NULL` returned at end of input. -/
def fgets (n : Nat) (stdin : List Nat) : Option (CStr × List Nat) :=
  if stdin = [] then none else some (fgetsLer (n - 1) stdin)

/-- The results of the successive calls of `fgets` with room for `cap` bytes on the bytes of
standard input, up to the end of input; `k` is the room left for the piece being read. -/
def leiturasAux (cap : Nat) : Nat → List Nat → List CStr
  | _, [] => []
  | k, b :: bs =>
    if b = 10 ∨ k ≤ 1 then [b] :: leiturasAux cap cap bs
    else
      match leiturasAux cap (k - 1) bs with
      | [] => [[b]]
      | l :: ls => (b :: l) :: ls

/-- The results of the successive calls `fgets (linha, sizeof (linha), stdin)` on the bytes of
standard input: what `explorarLoop` takes as its input. A line of more than 31 bytes, its
newline included, is read in several pieces. -/
def leituras (stdin : List Nat) : List CStr :=
  leiturasAux (TAM_LINHA - 1) (TAM_LINHA - 1) stdin

end DetetiveQuest

/-!
The piece queue and reserve stack simulation, a shallow embedding of `src/tetris_Stack.c`.

* The `int` fields and the id counter are integers without a bound, and `%` is the
  remainder of C, which truncates towards zero (`Int.tmod`).
* An array is the function from the index to the cell; only the indexes below its size are
  cells of the array. The local variables `fila` and `pilha` of `main` are not initialised
  when they are declared, so their cells start with arbitrary contents.
* `rand` is the sequence of its results: `rand k` is what the call number `k` returns.
-/

namespace TetrisStack

/-- `#define TAM_FILA 5` -/
def TAM_FILA : Int := 5

/-- `#define TAM_PILHA 3` -/
def TAM_PILHA : Int := 3

/-- `Peca` (lines 9-12): the character of the type and the identifier. -/
structure Peca where
  tipo : Nat
  id : Int
  deriving DecidableEq

/-- `Fila` (lines 15-20). -/
structure Fila where
  pecas : Int → Peca
  frente : Int
  tras : Int
  quantidade : Int

/-- `Pilha` (lines 58-61). -/
structure Pilha where
  pecas : Int → Peca
  topo : Int

/-- The array assignment `a[i] = p`. -/
def atribuir (a : Int → Peca) (i : Int) (p : Peca) : Int → Peca :=
  fun j => if j = i then p else a j

/-- The piece `{'-', -1}` returned by the removals from an empty structure. -/
def vazia : Peca := { tipo := '-'.toNat, id := -1 }

/-- `inicializarFila` (lines 23-27). -/
def inicializarFila (f : Fila) : Fila :=
  { f with frente := 0, tras := -1, quantidade := 0 }

/-- `filaCheia` (lines 30-32). -/
def filaCheia (f : Fila) : Bool := f.quantidade == TAM_FILA

/-- `filaVazia` (lines 35-37). -/
def filaVazia (f : Fila) : Bool := f.quantidade == 0

/-- `enfileirar` (lines 40-45). -/
def enfileirar (f : Fila) (p : Peca) : Fila :=
  if filaCheia f then f
  else
    let tras := (f.tras + 1).tmod TAM_FILA
    { f with tras := tras, pecas := atribuir f.pecas tras p, quantidade := f.quantidade + 1 }

/-- `desenfileirar` (lines 48-55): the piece returned and the queue left. -/
def desenfileirar (f : Fila) : Peca × Fila :=
  if filaVazia f then (vazia, f)
  else
    (f.pecas f.frente,
      { f with frente := (f.frente + 1).tmod TAM_FILA, quantidade := f.quantidade - 1 })

/-- `inicializarPilha` (lines 64-66). -/
def inicializarPilha (p : Pilha) : Pilha := { p with topo := -1 }

/-- `pilhaCheia` (lines 69-71). -/
def pilhaCheia (p : Pilha) : Bool := p.topo == TAM_PILHA - 1

/-- `pilhaVazia` (lines 74-76). -/
def pilhaVazia (p : Pilha) : Bool := p.topo == -1

/-- `empilhar` (lines 79-82). -/
def empilhar (p : Pilha) (nova : Peca) : Pilha :=
  if pilhaCheia p then p
  else { pecas := atribuir p.pecas (p.topo + 1) nova, topo := p.topo + 1 }

/-- `desempilhar` (lines 85-89): the piece returned and the stack left. -/
def desempilhar (p : Pilha) : Peca × Pilha :=
  if pilhaVazia p then (vazia, p)
  else (p.pecas p.topo, { p with topo := p.topo - 1 })

/-- `gerarPeca` (lines 94-100), `r` being the result of its call of `rand`. -/
def gerarPeca (id : Int) (r : Nat) : Peca :=
  { tipo := (['I', 'O', 'T', 'L'].map Char.toNat).getD (r % 4) 0, id := id }

/-- `exibirEstado` (lines 103-122): the pieces printed for the queue, front first, and for
the stack, top first. These are the pieces held by the two structures. -/
def exibirEstado (f : Fila) (p : Pilha) : List Peca × List Peca :=
  ((List.range f.quantidade.toNat).map
      (fun (i : Nat) => f.pecas ((f.frente + (i : Int)).tmod TAM_FILA)),
    if pilhaVazia p then []
    else (List.range (p.topo + 1).toNat).map (fun (i : Nat) => p.pecas (p.topo - (i : Int))))

/-- `trocarTopoComFrente` (lines 125-139). -/
def trocarTopoComFrente (fila : Fila) (pilha : Pilha) : Fila × Pilha :=
  if pilhaVazia pilha || filaVazia fila then (fila, pilha)
  else
    let frente := fila.frente
    let topo := pilha.topo
    let temp := fila.pecas frente
    ({ fila with pecas := atribuir fila.pecas frente (pilha.pecas topo) },
      { pilha with pecas := atribuir pilha.pecas topo temp })

/-- The body of the loop of `trocaMultipla` (lines 149-154) for one value of `i`. -/
def trocaPasso (fp : Fila × Pilha) (i : Int) : Fila × Pilha :=
  let idxFila := (fp.1.frente + i).tmod TAM_FILA
  let idxPilha := fp.2.topo - i
  let temp := fp.1.pecas idxFila
  ({ fp.1 with pecas := atribuir fp.1.pecas idxFila (fp.2.pecas idxPilha) },
    { fp.2 with pecas := atribuir fp.2.pecas idxPilha temp })

/-- `trocaMultipla` (lines 142-158). -/
def trocaMultipla (fila : Fila) (pilha : Pilha) : Fila × Pilha :=
  if fila.quantidade < 3 ∨ pilha.topo < 2 then (fila, pilha)
  else [0, 1, 2].foldl trocaPasso (fila, pilha)

/-- The variables of `main`, with the number of calls of `rand` made so far. -/
structure Jogo where
  fila : Fila
  pilha : Pilha
  idCounter : Int
  sorteios : Nat

/-- The statement `enfileirar (&fila, gerarPeca (idCounter++))` (lines 173, 194, 207). -/
def enfileirarNova (rand : Nat → Nat) (st : Jogo) : Jogo :=
  { st with
    fila := enfileirar st.fila (gerarPeca st.idCounter (rand st.sorteios)),
    idCounter := st.idCounter + 1,
    sorteios := st.sorteios + 1 }

/-- `main` up to its loop (lines 164-174): both structures are initialised over the
arbitrary contents `fila0` and `pilha0`, and the queue is filled with `TAM_FILA` pieces. -/
def inicio (rand : Nat → Nat) (fila0 : Fila) (pilha0 : Pilha) : Jogo :=
  (List.range TAM_FILA.toNat).foldl (fun st _ => enfileirarNova rand st)
    { fila := inicializarFila fila0, pilha := inicializarPilha pilha0, idCounter := 0,
      sorteios := 0 }

/-- The `switch` of `main` (lines 189-234) for the option read. -/
def passo (rand : Nat → Nat) (st : Jogo) (opcao : Int) : Jogo :=
  if opcao = 1 then
    if ¬ filaVazia st.fila then
      enfileirarNova rand { st with fila := (desenfileirar st.fila).2 }
    else st
  else if opcao = 2 then
    if pilhaCheia st.pilha then st
    else if ¬ filaVazia st.fila then
      let reservada := (desenfileirar st.fila).1
      enfileirarNova rand
        { st with fila := (desenfileirar st.fila).2, pilha := empilhar st.pilha reservada }
    else st
  else if opcao = 3 then
    if ¬ pilhaVazia st.pilha then { st with pilha := (desempilhar st.pilha).2 }
    else st
  else if opcao = 4 then
    { st with
      fila := (trocarTopoComFrente st.fila st.pilha).1,
      pilha := (trocarTopoComFrente st.fila st.pilha).2 }
  else if opcao = 5 then
    { st with
      fila := (trocaMultipla st.fila st.pilha).1,
      pilha := (trocaMultipla st.fila st.pilha).2 }
  else st

/-- The `do ... while (opcao != 0)` loop of `main` (lines 177-236) on the sequence of the
options read: the state when the loop is left by option 0, or when the options given are
used up. -/
def executar (rand : Nat → Nat) (st : Jogo) : List Int → Jogo
  | [] => st
  | opcao :: resto =>
    if opcao ≠ 0 then executar rand (passo rand st opcao) resto
    else passo rand st opcao

/-- The ids of the pieces held: those of the queue, front first, then those of the stack,
top first. -/
def idsGuardados (st : Jogo) : List Int :=
  ((exibirEstado st.fila st.pilha).1 ++ (exibirEstado st.fila st.pilha).2).map Peca.id

/-- The cells in use hold pairwise distinct ids, all from 0 up to the counter `c`: the
cells of the queue are all five, those of the stack are the ones up to `topo`. -/
def Distintas (fp pp : Int → Peca) (topo c : Int) : Prop :=
  (∀ i j, 0 ≤ i → i < 5 → 0 ≤ j → j < 5 → i ≠ j → (fp i).id ≠ (fp j).id) ∧
    (∀ i j, 0 ≤ i → i ≤ topo → 0 ≤ j → j ≤ topo → i ≠ j → (pp i).id ≠ (pp j).id) ∧
    (∀ i j, 0 ≤ i → i < 5 → 0 ≤ j → j ≤ topo → (fp i).id ≠ (pp j).id) ∧
    (∀ i, 0 ≤ i → i < 5 → 0 ≤ (fp i).id ∧ (fp i).id < c) ∧
    (∀ j, 0 ≤ j → j ≤ topo → 0 ≤ (pp j).id ∧ (pp j).id < c)

/-- The invariant of the loop of `main`: the queue is full, its indexes are in range and
`tras` is the cell before `frente`, the top of the stack is in range, and the cells in use
hold distinct ids below the counter. -/
def Invariante (st : Jogo) : Prop :=
  st.fila.quantidade = 5 ∧ 0 ≤ st.fila.frente ∧ st.fila.frente < 5 ∧
    st.fila.tras = (st.fila.frente + 4) % 5 ∧ -1 ≤ st.pilha.topo ∧ st.pilha.topo ≤ 2 ∧
    Distintas st.fila.pecas st.pilha.pecas st.pilha.topo st.idCounter

end TetrisStack

namespace DetetiveQuest

/-! ## Byte-wise comparison -/

theorem strcmp_self (a : CStr) : strcmp a a = 0 := by
  induction a with
  | nil => rfl
  | cons x xs ih => simp [strcmp, ih]

theorem strcmp_eq_zero_iff (a b : CStr) : strcmp a b = 0 ↔ a = b := by
  induction a generalizing b with
  | nil => cases b <;> simp [strcmp]
  | cons x xs ih =>
    cases b with
    | nil => simp [strcmp]
    | cons y ys =>
      simp only [strcmp]
      split_ifs with h1 h2
      · simp; omega
      · simp; omega
      · have : x = y := by omega
        simp [ih, this]

theorem strcmp_swap (a b : CStr) : strcmp b a = - strcmp a b := by
  induction a generalizing b with
  | nil => cases b <;> simp [strcmp]
  | cons x xs ih =>
    cases b with
    | nil => simp [strcmp]
    | cons y ys =>
      simp only [strcmp]
      split_ifs <;> first | omega | simp | exact ih ys

theorem strcmp_lt_trans (a b c : CStr) (h1 : strcmp a b < 0) (h2 : strcmp b c < 0) :
    strcmp a c < 0 := by
  induction a generalizing b c with
  | nil =>
    cases c with
    | nil => cases b <;> simp [strcmp] at h1 h2
    | cons z zs => simp [strcmp]
  | cons x xs ih =>
    cases b with
    | nil => simp [strcmp] at h1
    | cons y ys =>
      cases c with
      | nil => simp [strcmp] at h2
      | cons z zs =>
        simp only [strcmp] at h1 h2 ⊢
        split_ifs at h1 h2 ⊢ <;> first | omega | exact ih ys zs h1 h2

theorem strcmp_take_lt (n : Nat) (p k : CStr) (hk : k.length ≤ n) (h : strcmp p k < 0) :
    strcmp (p.take n) k < 0 := by
  induction n generalizing p k with
  | zero =>
    have : k = [] := List.length_eq_zero.mp (by omega)
    subst this
    cases p <;> simp [strcmp] at h
  | succ n ih =>
    cases p with
    | nil => simpa using h
    | cons x xs =>
      cases k with
      | nil => simp [strcmp] at h
      | cons y ys =>
        simp only [List.take_succ_cons, strcmp] at h ⊢
        simp only [List.length_cons] at hk
        split_ifs at h ⊢ <;> first | omega | exact ih xs ys (by omega) h

theorem strcmp_take_ge (n : Nat) (p k : CStr) (hk : k.length ≤ n) (h : 0 < strcmp p k) :
    0 ≤ strcmp (p.take n) k := by
  induction n generalizing p k with
  | zero =>
    have : k = [] := List.length_eq_zero.mp (by omega)
    subst this
    simp [strcmp]
  | succ n ih =>
    cases p with
    | nil => cases k <;> simp [strcmp] at h
    | cons x xs =>
      cases k with
      | nil => simp [strcmp]
      | cons y ys =>
        simp only [List.take_succ_cons, strcmp] at h ⊢
        simp only [List.length_cons] at hk
        split_ifs at h ⊢ <;> first | omega | exact ih xs ys (by omega) h

theorem strncpy_of_length_lt (n : Nat) (p : CStr) (h : p.length < n) : strncpy n p = p := by
  unfold strncpy
  exact List.take_of_length_le (by omega)

theorem strncpy_length_lt (n : Nat) (p : CStr) (hn : 0 < n) : (strncpy n p).length < n := by
  unfold strncpy
  rw [List.length_take]
  omega

theorem visitadas_aux (t : PistaNode) (acc : List CStr) :
    bst_traverse_inorder t (fun pista ctx => ctx ++ [pista]) acc = acc ++ exibirPistas t := by
  induction t generalizing acc with
  | nil => simp [bst_traverse_inorder, exibirPistas]
  | node k l r ihl ihr => simp [bst_traverse_inorder, exibirPistas, ihl, ihr]

theorem visitadas_eq_exibirPistas (t : PistaNode) : visitadas t = exibirPistas t := by
  simp [visitadas, visitadas_aux]

theorem inserirPista_nil (p : CStr) (hp : p ≠ []) :
    inserirPista .nil p = .node (strncpy MAX_PISTA p) .nil .nil := by
  simp [inserirPista, hp]

theorem inserirPista_empty (t : PistaNode) : inserirPista t [] = t := by
  unfold inserirPista; simp

theorem inserirPista_node (k : CStr) (l r : PistaNode) (p : CStr) (hp : p ≠ []) :
    inserirPista (.node k l r) p =
      if strcmp p k < 0 then .node k (inserirPista l p) r
      else if strcmp p k > 0 then .node k l (inserirPista r p)
      else .node k l r := by
  rw [inserirPista]; simp [hp]

theorem mem_exibirPistas_inserirPista (t : PistaNode) (p x : CStr)
    (hx : x ∈ exibirPistas (inserirPista t p)) :
    x ∈ exibirPistas t ∨ x = strncpy MAX_PISTA p := by
  by_cases hp : p = []
  · subst hp; rw [inserirPista_empty] at hx; exact Or.inl hx
  induction t with
  | nil =>
    rw [inserirPista_nil p hp] at hx
    simp [exibirPistas] at hx
    exact Or.inr hx
  | node k l r ihl ihr =>
    rw [inserirPista_node k l r p hp] at hx
    split_ifs at hx with h1 h2
    · simp only [exibirPistas, List.mem_append, List.mem_cons] at hx ⊢
      rcases hx with hx | hx | hx
      · rcases ihl hx with h | h
        · exact Or.inl (Or.inl h)
        · exact Or.inr h
      · exact Or.inl (Or.inr (Or.inl hx))
      · exact Or.inl (Or.inr (Or.inr hx))
    · simp only [exibirPistas, List.mem_append, List.mem_cons] at hx ⊢
      rcases hx with hx | hx | hx
      · exact Or.inl (Or.inl hx)
      · exact Or.inl (Or.inr (Or.inl hx))
      · rcases ihr hx with h | h
        · exact Or.inl (Or.inr (Or.inr h))
        · exact Or.inr h
    · exact Or.inl hx

theorem ordenada_inserirPista (t : PistaNode) (p : CStr) (hlen : p.length < MAX_PISTA)
    (ht : Ordenada t) : Ordenada (inserirPista t p) := by
  by_cases hp : p = []
  · subst hp; rw [inserirPista_empty]; exact ht
  have hcp : strncpy MAX_PISTA p = p := strncpy_of_length_lt _ _ hlen
  induction t with
  | nil =>
    rw [inserirPista_nil p hp]
    simp [Ordenada, exibirPistas]
  | node k l r ihl ihr =>
    obtain ⟨hl, hr, hlk, hrk⟩ := ht
    rw [inserirPista_node k l r p hp]
    split_ifs with h1 h2
    · refine ⟨ihl hl, hr, ?_, hrk⟩
      intro x hx
      rcases mem_exibirPistas_inserirPista l p x hx with h | h
      · exact hlk x h
      · rw [h, hcp]; exact h1
    · refine ⟨hl, ihr hr, hlk, ?_⟩
      intro x hx
      rcases mem_exibirPistas_inserirPista r p x hx with h | h
      · exact hrk x h
      · rw [h, hcp, strcmp_swap]; omega
    · exact ⟨hl, hr, hlk, hrk⟩

theorem crescente_of_ordenada (t : PistaNode) (ht : Ordenada t) : Crescente (exibirPistas t) := by
  induction t with
  | nil => simp [Crescente, exibirPistas]
  | node k l r ihl ihr =>
    obtain ⟨hl, hr, hlk, hrk⟩ := ht
    unfold Crescente at *
    simp only [exibirPistas]
    rw [List.pairwise_append]
    refine ⟨ihl hl, ?_, ?_⟩
    · rw [List.pairwise_cons]
      exact ⟨hrk, ihr hr⟩
    · intro a ha b hb
      rcases List.mem_cons.mp hb with h | h
      · rw [h]; exact hlk a ha
      · exact strcmp_lt_trans a k b (hlk a ha) (hrk b h)

theorem ordenada_inserirTodas_aux (ps : List CStr) (t : PistaNode)
    (hlen : ∀ p ∈ ps, p.length < MAX_PISTA) (ht : Ordenada t) :
    Ordenada (ps.foldl inserirPista t) := by
  induction ps generalizing t with
  | nil => exact ht
  | cons p ps ih =>
    simp only [List.foldl_cons]
    exact ih _ (fun q hq => hlen q (List.mem_cons_of_mem _ hq))
      (ordenada_inserirPista t p (hlen p (List.mem_cons_self _ _)) ht)

theorem nodup_of_crescente (l : List CStr) (h : Crescente l) : l.Nodup := by
  unfold Crescente at h
  refine List.Pairwise.imp ?_ h
  intro a b hab heq
  rw [heq, strcmp_self] at hab
  omega

theorem quaseOrdenada_inserirPista (t : PistaNode) (p : CStr) (ht : QuaseOrdenada t) :
    QuaseOrdenada (inserirPista t p) := by
  by_cases hp : p = []
  · subst hp; rw [inserirPista_empty]; exact ht
  induction t with
  | nil =>
    rw [inserirPista_nil p hp]
    simp only [QuaseOrdenada, exibirPistas, List.not_mem_nil, false_imp_iff, implies_true,
      and_true, true_and]
    exact strncpy_length_lt _ _ (by decide)
  | node k l r ihl ihr =>
    obtain ⟨hl, hr, hk, hlk, hrk⟩ := ht
    have hk2 : k.length ≤ MAX_PISTA - 1 := by omega
    rw [inserirPista_node k l r p hp]
    split_ifs with h1 h2
    · refine ⟨ihl hl, hr, hk, ?_, hrk⟩
      intro x hx
      rcases mem_exibirPistas_inserirPista l p x hx with h | h
      · exact hlk x h
      · rw [h]; exact strcmp_take_lt _ p k hk2 h1
    · refine ⟨hl, ihr hr, hk, hlk, ?_⟩
      intro x hx
      rcases mem_exibirPistas_inserirPista r p x hx with h | h
      · exact hrk x h
      · rw [h]; exact strcmp_take_ge _ p k hk2 h2
    · exact ⟨hl, hr, hk, hlk, hrk⟩

theorem quaseOrdenada_foldl (ps : List CStr) (t : PistaNode) (ht : QuaseOrdenada t) :
    QuaseOrdenada (ps.foldl inserirPista t) := by
  induction ps generalizing t with
  | nil => exact ht
  | cons p ps ih => exact ih _ (quaseOrdenada_inserirPista t p ht)

theorem quaseOrdenada_inserirTodas (ps : List CStr) : QuaseOrdenada (inserirTodas ps) :=
  quaseOrdenada_foldl ps .nil trivial

theorem inserirPista_of_mem (t : PistaNode) (c : CStr) (ht : QuaseOrdenada t)
    (hc : c ∈ exibirPistas t) : inserirPista t c = t := by
  by_cases hp : c = []
  · subst hp; exact inserirPista_empty t
  induction t with
  | nil => simp [exibirPistas] at hc
  | node k l r ihl ihr =>
    obtain ⟨hl, hr, hk, hlk, hrk⟩ := ht
    rw [inserirPista_node k l r c hp]
    simp only [exibirPistas, List.mem_append, List.mem_cons] at hc
    split_ifs with h1 h2
    · rcases hc with h | h | h
      · rw [ihl hl h]
      · rw [h, strcmp_self] at h1; omega
      · have := hrk c h; omega
    · rcases hc with h | h | h
      · have := hlk c h; omega
      · rw [h, strcmp_self] at h2; omega
      · rw [ihr hr h]
    · rfl

/-- C2. For every ledger built by `inserirPista` calls from the empty ledger (texts of any
length) and every clue contained in it, that is, listed by `exibirPistas`, inserting that clue
again returns the same tree, hence the same number of entries. -/
theorem inserirPista_present_unchanged (pistas : List CStr) (c : CStr)
    (hc : c ∈ exibirPistas (inserirTodas pistas)) :
    inserirPista (inserirTodas pistas) c = inserirTodas pistas ∧
      (exibirPistas (inserirPista (inserirTodas pistas) c)).length =
        (exibirPistas (inserirTodas pistas)).length := by
  have h := inserirPista_of_mem _ c (quaseOrdenada_inserirTodas pistas) hc
  exact ⟨h, by rw [h]⟩

theorem inserirPista_present_unchanged_witness :
    cstr "Anel" ∈ exibirPistas (inserirTodas [cstr "Chave", cstr "Anel", cstr "Faca"]) ∧
      inserirPista (inserirTodas [cstr "Chave", cstr "Anel", cstr "Faca"]) (cstr "Anel") =
        inserirTodas [cstr "Chave", cstr "Anel", cstr "Faca"] ∧
      (exibirPistas (inserirPista (inserirTodas [cstr "Chave", cstr "Anel", cstr "Faca"])
          (cstr "Anel"))).length =
        (exibirPistas (inserirTodas [cstr "Chave", cstr "Anel", cstr "Faca"])).length :=
  ⟨by decide, inserirPista_present_unchanged _ _ (by decide)⟩

/-! ## The suspect index -/

theorem procurar_sobrescrever_self (c s : CStr) (cadeia cadeia2 : List HashEntry)
    (h : sobrescrever c s cadeia = some cadeia2) :
    procurar c cadeia2 = some (strncpy MAX_NOME s) := by
  induction cadeia generalizing cadeia2 with
  | nil => simp [sobrescrever] at h
  | cons cur prox ih =>
    simp only [sobrescrever] at h
    split_ifs at h with h1
    · simp only [Option.some.injEq] at h
      subst h
      simp [procurar, h1]
    · simp only [Option.map_eq_some'] at h
      obtain ⟨resto, hr, rfl⟩ := h
      simp [procurar, h1, ih resto hr]

theorem procurar_sobrescrever_other (k s c : CStr) (hkc : k ≠ c)
    (cadeia cadeia2 : List HashEntry) (h : sobrescrever k s cadeia = some cadeia2) :
    procurar c cadeia2 = procurar c cadeia := by
  induction cadeia generalizing cadeia2 with
  | nil => simp [sobrescrever] at h
  | cons cur prox ih =>
    simp only [sobrescrever] at h
    split_ifs at h with h1
    · simp only [Option.some.injEq] at h
      subst h
      have hk : cur.pista = k := (strcmp_eq_zero_iff _ _).mp h1
      have hne : ¬ strcmp cur.pista c = 0 := by
        rw [strcmp_eq_zero_iff, hk]; exact hkc
      simp [procurar, hne]
    · simp only [Option.map_eq_some'] at h
      obtain ⟨resto, hr, rfl⟩ := h
      simp [procurar, ih resto hr]

theorem sobrescrever_map_pista (k s : CStr) (cadeia cadeia2 : List HashEntry)
    (h : sobrescrever k s cadeia = some cadeia2) :
    cadeia2.map HashEntry.pista = cadeia.map HashEntry.pista := by
  induction cadeia generalizing cadeia2 with
  | nil => simp [sobrescrever] at h
  | cons cur prox ih =>
    simp only [sobrescrever] at h
    split_ifs at h with h1
    · simp only [Option.some.injEq] at h
      subst h
      simp
    · simp only [Option.map_eq_some'] at h
      obtain ⟨resto, hr, rfl⟩ := h
      simp [ih resto hr]

theorem procurar_eq_none (c : CStr) (cadeia : List HashEntry)
    (h : ∀ e ∈ cadeia, e.pista ≠ c) : procurar c cadeia = none := by
  induction cadeia with
  | nil => rfl
  | cons cur prox ih =>
    have hne : ¬ strcmp cur.pista c = 0 := by
      rw [strcmp_eq_zero_iff]; exact h cur (List.mem_cons_self _ _)
    simp only [procurar, hne, if_false]
    exact ih (fun e he => h e (List.mem_cons_of_mem _ he))

theorem setBucket_same (ht : HashTable) (idx : Fin HASH_TABLE_SIZE) (cadeia : List HashEntry) :
    setBucket ht idx cadeia idx = cadeia := by
  simp [setBucket]

theorem setBucket_other (ht : HashTable) (idx i : Fin HASH_TABLE_SIZE)
    (cadeia : List HashEntry) (h : i ≠ idx) : setBucket ht idx cadeia i = ht i := by
  simp [setBucket, h]

theorem encontrarSuspeito_inserirNaHash_self (ht : HashTable) (c s : CStr) (hc : c ≠ [])
    (hlen : c.length < MAX_PISTA) :
    encontrarSuspeito (inserirNaHash ht c s) c = some (strncpy MAX_NOME s) := by
  simp only [encontrarSuspeito, inserirNaHash, hc, if_false]
  cases h : sobrescrever c s (ht (bucketIdx c)) with
  | some cadeia =>
    simp only [setBucket_same]
    exact procurar_sobrescrever_self c s _ _ h
  | none =>
    simp only [setBucket_same, procurar, strncpy_of_length_lt _ _ hlen, strcmp_self, if_true]

theorem encontrarSuspeito_inserirNaHash_other (ht : HashTable) (k s c : CStr) (hkc : k ≠ c)
    (hstored : strncpy MAX_PISTA k ≠ c) :
    encontrarSuspeito (inserirNaHash ht k s) c = encontrarSuspeito ht c := by
  by_cases hc : c = []
  · simp [encontrarSuspeito, hc]
  by_cases hk : k = []
  · simp [inserirNaHash, hk]
  simp only [encontrarSuspeito, inserirNaHash, hc, hk, if_false]
  by_cases hidx : bucketIdx c = bucketIdx k
  · rw [hidx]
    cases h : sobrescrever k s (ht (bucketIdx k)) with
    | some cadeia =>
      simp only [setBucket_same]
      exact procurar_sobrescrever_other k s c hkc _ _ h
    | none =>
      have hne : ¬ strcmp (strncpy MAX_PISTA k) c = 0 := by
        rw [strcmp_eq_zero_iff]; exact hstored
      simp only [setBucket_same, procurar, hne, if_false]
  · cases h : sobrescrever k s (ht (bucketIdx k)) with
    | some cadeia => simp only [setBucket_other _ _ _ _ hidx]
    | none => simp only [setBucket_other _ _ _ _ hidx]

theorem encontrarSuspeito_foldl_other (depois : List (CStr × CStr)) (ht : HashTable) (c : CStr)
    (hlen : c.length < MAX_PISTA) (h : ∀ q ∈ depois, strncpy MAX_PISTA q.1 ≠ c) :
    encontrarSuspeito (depois.foldl (fun ht q => inserirNaHash ht q.1 q.2) ht) c =
      encontrarSuspeito ht c := by
  induction depois generalizing ht with
  | nil => rfl
  | cons q qs ih =>
    simp only [List.foldl_cons]
    rw [ih _ (fun r hr => h r (List.mem_cons_of_mem _ hr))]
    have hq := h q (List.mem_cons_self _ _)
    refine encontrarSuspeito_inserirNaHash_other ht q.1 q.2 c ?_ hq
    intro heq
    rw [heq, strncpy_of_length_lt _ _ hlen] at hq
    exact hq rfl

/-- C3 (amended). In the table reached from `initHash` by the calls `antes`, then
`inserirNaHash (c, s)`, then the calls `depois`, where the clue `c` is not empty and has at most
127 bytes and no later call has a key whose first 127 bytes are `c` (for keys that fit the
buffer: no later call is made for `c`), `encontrarSuspeito (c)` returns the first 63 bytes
of `s`, which is `s` itself when `s` fits the buffer of `MAX_NOME` bytes. -/
theorem encontrarSuspeito_last_write_wins (antes depois : List (CStr × CStr)) (c s : CStr)
    (hc : c ≠ []) (hlen : c.length < MAX_PISTA)
    (hdepois : ∀ q ∈ depois, strncpy MAX_PISTA q.1 ≠ c) :
    encontrarSuspeito (popular (antes ++ (c, s) :: depois)) c = some (s.take (MAX_NOME - 1)) ∧
      (s.length < MAX_NOME →
        encontrarSuspeito (popular (antes ++ (c, s) :: depois)) c = some s) := by
  have h : encontrarSuspeito (popular (antes ++ (c, s) :: depois)) c =
      some (strncpy MAX_NOME s) := by
    unfold popular
    rw [List.foldl_append, List.foldl_cons, encontrarSuspeito_foldl_other depois _ c hlen hdepois]
    exact encontrarSuspeito_inserirNaHash_self _ c s hc hlen
  refine ⟨h, fun hs => ?_⟩
  rw [h, strncpy_of_length_lt _ _ hs]

theorem encontrarSuspeito_last_write_wins_witness :
    cstr "Chave enferrujada" ≠ [] ∧ (cstr "Chave enferrujada").length < MAX_PISTA ∧
      (∀ q ∈ [(cstr "Fio de tecido azul", cstr "Jovem Green")],
        strncpy MAX_PISTA q.1 ≠ cstr "Chave enferrujada") ∧
      (encontrarSuspeito (popular ([(cstr "Chave enferrujada", cstr "Sra. White")] ++
          (cstr "Chave enferrujada", cstr "Sr. Black") ::
            [(cstr "Fio de tecido azul", cstr "Jovem Green")])) (cstr "Chave enferrujada") =
          some ((cstr "Sr. Black").take (MAX_NOME - 1)) ∧
        ((cstr "Sr. Black").length < MAX_NOME →
          encontrarSuspeito (popular ([(cstr "Chave enferrujada", cstr "Sra. White")] ++
            (cstr "Chave enferrujada", cstr "Sr. Black") ::
              [(cstr "Fio de tecido azul", cstr "Jovem Green")])) (cstr "Chave enferrujada") =
            some (cstr "Sr. Black"))) :=
  ⟨by decide, by decide, by decide,
    encontrarSuspeito_last_write_wins _ _ _ _ (by decide) (by decide) (by decide)⟩

set_option maxRecDepth 100000 in
/-- C3, counterexample. The last association made for a clue is not returned when the clue
has 128 bytes (not found), when the suspect has 64 bytes (its first 63 are returned), when the
clue is empty (not found), and when a later call with a key of 128 bytes that extends the clue
(127 bytes `h`, then `C`) falls in the same bucket (the later suspect is returned). -/
theorem encontrarSuspeito_misses_last_write :
    encontrarSuspeito (popular [(List.replicate 128 97, cstr "Sr. Black")])
        (List.replicate 128 97) = none ∧
      encontrarSuspeito (popular [(cstr "Chave enferrujada", List.replicate 64 120)])
        (cstr "Chave enferrujada") = some (List.replicate 63 120) ∧
      encontrarSuspeito (popular [([], cstr "Sr. Black")]) [] = none ∧
      encontrarSuspeito (popular [(List.replicate 127 104, cstr "Sr. Black"),
        (List.replicate 127 104 ++ cstr "C", cstr "Sra. White")]) (List.replicate 127 104) =
        some (cstr "Sra. White") := by
  refine ⟨by decide, by decide, by decide, by decide⟩

theorem popular_pistas (calls : List (CStr × CStr)) (ht : HashTable) (c : CStr)
    (hht : ∀ i, ∀ e ∈ ht i, e.pista ≠ c) (h : ∀ q ∈ calls, strncpy MAX_PISTA q.1 ≠ c) :
    ∀ i, ∀ e ∈ (calls.foldl (fun ht q => inserirNaHash ht q.1 q.2) ht) i, e.pista ≠ c := by
  induction calls generalizing ht with
  | nil => exact hht
  | cons q qs ih =>
    simp only [List.foldl_cons]
    refine ih _ ?_ (fun r hr => h r (List.mem_cons_of_mem _ hr))
    have hq := h q (List.mem_cons_self _ _)
    intro i e he
    unfold inserirNaHash at he
    split_ifs at he with hk
    · exact hht i e he
    · simp only at he
      by_cases hi : i = bucketIdx q.1
      · subst hi
        cases hs : sobrescrever q.1 q.2 (ht (bucketIdx q.1)) with
        | some cadeia =>
          rw [hs] at he
          simp only [setBucket_same] at he
          have hm := sobrescrever_map_pista _ _ _ _ hs
          have : e.pista ∈ cadeia.map HashEntry.pista := List.mem_map_of_mem _ he
          rw [hm, List.mem_map] at this
          obtain ⟨e2, he2, heq⟩ := this
          rw [← heq]
          exact hht _ e2 he2
        | none =>
          rw [hs] at he
          simp only [setBucket_same, List.mem_cons] at he
          rcases he with he | he
          · rw [he]; exact hq
          · exact hht _ e he
      · cases hs : sobrescrever q.1 q.2 (ht (bucketIdx q.1)) with
        | some cadeia =>
          rw [hs] at he
          simp only [setBucket_other _ _ _ _ hi] at he
          exact hht i e he
        | none =>
          rw [hs] at he
          simp only [setBucket_other _ _ _ _ hi] at he
          exact hht i e he

/-- C4 (amended). For every table reached from `initHash` by a sequence of `inserirNaHash`
calls and every clue that is not the first 127 bytes of the key of any of those calls (for keys
that fit the buffer: that was never passed as a key), `encontrarSuspeito` returns
not-found. -/
theorem encontrarSuspeito_never_inserted (calls : List (CStr × CStr)) (c : CStr)
    (h : ∀ q ∈ calls, strncpy MAX_PISTA q.1 ≠ c) :
    encontrarSuspeito (popular calls) c = none := by
  unfold encontrarSuspeito
  split_ifs with hc
  · rfl
  · exact procurar_eq_none c _
      (popular_pistas calls initHash c (fun i e he => by simp [initHash] at he) h _)

theorem encontrarSuspeito_never_inserted_witness :
    (∀ q ∈ [(cstr "Chave enferrujada", cstr "Sr. Black"),
        (cstr "Fio de tecido azul", cstr "Jovem Green")],
        strncpy MAX_PISTA q.1 ≠ cstr "Retrato pendurado torto") ∧
      encontrarSuspeito (popular [(cstr "Chave enferrujada", cstr "Sr. Black"),
        (cstr "Fio de tecido azul", cstr "Jovem Green")]) (cstr "Retrato pendurado torto") =
        none :=
  ⟨by decide, encontrarSuspeito_never_inserted _ _ (by decide)⟩

set_option maxRecDepth 100000 in
/-- C4, counterexample. After the single call with the key made of 127 bytes `h` and one
`C`, the clue made of the 127 bytes `h` alone, never passed as a key, is found: the stored key
is truncated to it and both texts fall in the same bucket (bucket 93; they also share a
bucket, 18, where `unsigned long` has 32 bits). -/
theorem encontrarSuspeito_finds_truncated_key :
    (∀ q ∈ [(List.replicate 127 104 ++ cstr "C", cstr "Sr. Black")],
        q.1 ≠ List.replicate 127 104) ∧
      encontrarSuspeito (popular [(List.replicate 127 104 ++ cstr "C", cstr "Sr. Black")])
        (List.replicate 127 104) = some (cstr "Sr. Black") := by
  refine ⟨by decide, by decide⟩

/-! ## The verdict -/

theorem contador_callback_eq (pista : CStr) (ctx : ContadorContext) :
    contador_callback pista ctx =
      { ctx with contador := ctx.contador +
          (if encontrarSuspeito ctx.ht pista = some ctx.acusado then 1 else 0) } := by
  unfold contador_callback
  cases h : encontrarSuspeito ctx.ht pista with
  | none => simp
  | some sus =>
    by_cases hs : sus = ctx.acusado
    · simp [hs, strcmp_self]
    · have : ¬ strcmp sus ctx.acusado = 0 := by rw [strcmp_eq_zero_iff]; exact hs
      simp [hs, this]

theorem bst_traverse_inorder_contador (t : PistaNode) (ctx : ContadorContext) :
    bst_traverse_inorder t contador_callback ctx =
      { ctx with contador := ctx.contador +
          (exibirPistas t).countP (fun p => encontrarSuspeito ctx.ht p = some ctx.acusado) } := by
  induction t generalizing ctx with
  | nil => simp [bst_traverse_inorder, exibirPistas]
  | node k l r ihl ihr =>
    simp only [bst_traverse_inorder, exibirPistas, ihl, ihr, contador_callback_eq,
      List.countP_append, List.countP_cons]
    simp only [ContadorContext.mk.injEq, true_and, decide_eq_true_eq]
    omega

/-- C5. For every ledger, table and accused name, `verificarSuspeitoFinal` returns the number
of clues of the ledger for which `encontrarSuspeito` returns a suspect equal byte for byte to
the accused name; a clue that is not found or whose suspect differs adds nothing. (The counter
is an `int` in the source; it is exact below `2 ^ 31` entries.) -/
theorem verificarSuspeitoFinal_counts_matches (arvorePistas : PistaNode) (ht : HashTable)
    (acusado : CStr) :
    verificarSuspeitoFinal arvorePistas ht acusado =
      (exibirPistas arvorePistas).countP (fun p => encontrarSuspeito ht p = some acusado) := by
  cases arvorePistas with
  | nil => simp [verificarSuspeitoFinal, exibirPistas]
  | node k l r =>
    simp only [verificarSuspeitoFinal]
    rw [bst_traverse_inorder_contador]
    simp

set_option maxRecDepth 100000 in
/-- C6. Scenario A: with the three clues in the ledger, all mapped to "Sr. Black",
`verificarSuspeitoFinal` for "Sr. Black" returns 3 and the decision is "sustained". -/
theorem scenario_A_accusation_sustained :
    verificarSuspeitoFinal
        (inserirTodas [cstr "Pegadas sujas perto da janela", cstr "Chave enferrujada",
          cstr "Pegadas que levam ao portao"])
        (popular [(cstr "Pegadas sujas perto da janela", cstr "Sr. Black"),
          (cstr "Chave enferrujada", cstr "Sr. Black"),
          (cstr "Pegadas que levam ao portao", cstr "Sr. Black")])
        (cstr "Sr. Black") = 3 ∧
      veredito (verificarSuspeitoFinal
        (inserirTodas [cstr "Pegadas sujas perto da janela", cstr "Chave enferrujada",
          cstr "Pegadas que levam ao portao"])
        (popular [(cstr "Pegadas sujas perto da janela", cstr "Sr. Black"),
          (cstr "Chave enferrujada", cstr "Sr. Black"),
          (cstr "Pegadas que levam ao portao", cstr "Sr. Black")])
        (cstr "Sr. Black")) = Veredito.sustentada := by
  refine ⟨by decide, by decide⟩

set_option maxRecDepth 100000 in
/-- C7. Scenario B: with the only clue "Fio de tecido azul" mapped to "Jovem Green",
`verificarSuspeitoFinal` for "Jovem Green" returns 1 and the decision is "insufficient". -/
theorem scenario_B_insufficient_evidence :
    verificarSuspeitoFinal (inserirTodas [cstr "Fio de tecido azul"])
        (popular [(cstr "Fio de tecido azul", cstr "Jovem Green")]) (cstr "Jovem Green") = 1 ∧
      veredito (verificarSuspeitoFinal (inserirTodas [cstr "Fio de tecido azul"])
        (popular [(cstr "Fio de tecido azul", cstr "Jovem Green")]) (cstr "Jovem Green")) =
        Veredito.fragil := by
  refine ⟨by decide, by decide⟩

/-! ## Exploration -/

theorem ch_e : ch 'e' = 101 := by decide
theorem ch_d : ch 'd' = 100 := by decide
theorem ch_s : ch 's' = 115 := by decide

theorem explorarLoop_eof (nome pista : CStr) (esq dir : Sala)
    (hnl : ¬ (esq.isNull = true ∧ dir.isNull = true))
    (arv : PistaNode) (saida : List Evento) :
    explorarLoop [] (.node nome pista esq dir) arv saida =
      ⟨.node nome pista esq dir, entrarSala pista arv, [],
        saida ++ anunciarSala nome pista ++ [.menu (opcao esq) (opcao dir)]⟩ := by
  rw [explorarLoop]
  simp only [if_neg hnl]

theorem explorarLoop_folha (stdin : List CStr) (nome pista : CStr) (esq dir : Sala)
    (hl : esq.isNull = true ∧ dir.isNull = true) (arv : PistaNode) (saida : List Evento) :
    ∃ resto fim, explorarLoop stdin (.node nome pista esq dir) arv saida =
      ⟨.node nome pista esq dir, entrarSala pista arv, resto,
        saida ++ anunciarSala nome pista ++ [.salaFolha] ++ fim⟩ ∧
      (fim = [] ∨ fim = [.encerradaPeloJogador]) ∧ resto = stdin.tail := by
  rw [explorarLoop]
  simp only [if_pos hl]
  cases stdin with
  | nil => exact ⟨[], [], by simp, Or.inl rfl, rfl⟩
  | cons linha resto =>
    by_cases hs : tolower (primeiro linha) = ch 's'
    · exact ⟨resto, [.encerradaPeloJogador], by simp [hs], Or.inr rfl, rfl⟩
    · exact ⟨resto, [], by simp [hs], Or.inl rfl, rfl⟩

theorem explorarLoop_esq (linha : CStr) (resto : List CStr) (nome pista : CStr) (esq dir : Sala)
    (he : esq.isNull = false) (hc : tolower (primeiro linha) = ch 'e')
    (arv : PistaNode) (saida : List Evento) :
    explorarLoop (linha :: resto) (.node nome pista esq dir) arv saida =
      explorarLoop resto esq (entrarSala pista arv)
        (saida ++ anunciarSala nome pista ++ [.menu (opcao esq) (opcao dir)]) := by
  rw [explorarLoop]
  simp [he, hc]

theorem explorarLoop_esq_bloqueado (linha : CStr) (resto : List CStr) (nome pista : CStr)
    (esq dir : Sala) (he : esq.isNull = true) (hd : dir.isNull = false)
    (hc : tolower (primeiro linha) = ch 'e') (arv : PistaNode) (saida : List Evento) :
    explorarLoop (linha :: resto) (.node nome pista esq dir) arv saida =
      explorarLoop resto (.node nome pista esq dir) (entrarSala pista arv)
        (saida ++ anunciarSala nome pista ++ [.menu (opcao esq) (opcao dir)] ++
          [.esquerdaIndisponivel]) := by
  rw [explorarLoop]
  simp [he, hd, hc]

theorem explorarLoop_dir (linha : CStr) (resto : List CStr) (nome pista : CStr) (esq dir : Sala)
    (hd : dir.isNull = false) (hc : tolower (primeiro linha) = ch 'd')
    (arv : PistaNode) (saida : List Evento) :
    explorarLoop (linha :: resto) (.node nome pista esq dir) arv saida =
      explorarLoop resto dir (entrarSala pista arv)
        (saida ++ anunciarSala nome pista ++ [.menu (opcao esq) (opcao dir)]) := by
  rw [explorarLoop]
  simp [hd, hc, ch_e, ch_d]

theorem explorarLoop_dir_bloqueado (linha : CStr) (resto : List CStr) (nome pista : CStr)
    (esq dir : Sala) (he : esq.isNull = false) (hd : dir.isNull = true)
    (hc : tolower (primeiro linha) = ch 'd') (arv : PistaNode) (saida : List Evento) :
    explorarLoop (linha :: resto) (.node nome pista esq dir) arv saida =
      explorarLoop resto (.node nome pista esq dir) (entrarSala pista arv)
        (saida ++ anunciarSala nome pista ++ [.menu (opcao esq) (opcao dir)] ++
          [.direitaIndisponivel]) := by
  rw [explorarLoop]
  simp [he, hd, hc, ch_e, ch_d]

theorem explorarLoop_sair (linha : CStr) (resto : List CStr) (nome pista : CStr)
    (esq dir : Sala) (hnl : ¬ (esq.isNull = true ∧ dir.isNull = true))
    (hc : tolower (primeiro linha) = ch 's') (arv : PistaNode) (saida : List Evento) :
    explorarLoop (linha :: resto) (.node nome pista esq dir) arv saida =
      ⟨.node nome pista esq dir, entrarSala pista arv, resto,
        saida ++ anunciarSala nome pista ++ [.menu (opcao esq) (opcao dir)] ++
          [.encerradaPeloJogador]⟩ := by
  rw [explorarLoop]
  simp only [if_neg hnl]
  simp [hc, ch_e, ch_d, ch_s]

theorem explorarLoop_invalido (linha : CStr) (resto : List CStr) (nome pista : CStr)
    (esq dir : Sala) (hnl : ¬ (esq.isNull = true ∧ dir.isNull = true))
    (he : tolower (primeiro linha) ≠ ch 'e') (hd : tolower (primeiro linha) ≠ ch 'd')
    (hs : tolower (primeiro linha) ≠ ch 's') (arv : PistaNode) (saida : List Evento) :
    explorarLoop (linha :: resto) (.node nome pista esq dir) arv saida =
      explorarLoop resto (.node nome pista esq dir) (entrarSala pista arv)
        (saida ++ anunciarSala nome pista ++ [.menu (opcao esq) (opcao dir)] ++
          [.comandoInvalido]) := by
  rw [explorarLoop]
  simp only [if_neg hnl]
  simp [he, hd, hs]

theorem inserirPista_idem (t : PistaNode) (p : CStr) (hlen : p.length < MAX_PISTA) :
    inserirPista (inserirPista t p) p = inserirPista t p := by
  by_cases hp : p = []
  · subst hp; simp [inserirPista_empty]
  induction t with
  | nil =>
    rw [inserirPista_nil p hp, strncpy_of_length_lt _ _ hlen, inserirPista_node _ _ _ _ hp]
    simp [strcmp_self]
  | node k l r ihl ihr =>
    rw [inserirPista_node k l r p hp]
    split_ifs with h1 h2
    · rw [inserirPista_node _ _ _ _ hp, if_pos h1, ihl]
    · rw [inserirPista_node _ _ _ _ hp, if_neg h1, if_pos h2, ihr]
    · rw [inserirPista_node _ _ _ _ hp, if_neg h1, if_neg h2]

theorem entrarSala_idem (pista : CStr) (arv : PistaNode) (hlen : pista.length < MAX_PISTA) :
    entrarSala pista (entrarSala pista arv) = entrarSala pista arv := by
  unfold entrarSala
  split_ifs with h
  · exact inserirPista_idem arv pista hlen
  · rfl

theorem explorarLoop_nil_atual (s : Sala) (arv : PistaNode) (saida : List Evento) :
    (explorarLoop [] s arv saida).atual = s := by
  cases s with
  | nil => rw [explorarLoop]
  | node nome pista esq dir =>
    by_cases hl : esq.isNull = true ∧ dir.isNull = true
    · obtain ⟨resto, fim, h, _, _⟩ := explorarLoop_folha [] nome pista esq dir hl arv saida
      rw [h]
    · rw [explorarLoop_eof nome pista esq dir hl]

theorem not_mem_anunciarSala (nome pista : CStr) (e : Evento)
    (h1 : ∀ n, e ≠ .entrou n) (h2 : ∀ p, e ≠ .pistaEncontrada p) (h3 : e ≠ .nenhumaPista) :
    e ∉ anunciarSala nome pista := by
  unfold anunciarSala
  split_ifs <;> simp [h1, h2, h3]

/-- C8 (amended). For every room tree whose root has a left child, after the commands
left then right (first bytes `e`/`E`, then `d`/`D`) the exploration is positioned at
`root.left.right` when that room exists; when `root.left` has a left child but no right child,
it remains at `root.left` and reports the right path as unavailable; when `root.left` is a
leaf, the second input ends the exploration at `root.left` after the leaf notice, with no
report of a blocked path. -/
theorem explorar_left_then_right (raiz : Sala) (arv : PistaNode) (l1 l2 : CStr)
    (resto : List CStr) (hesq : raiz.esq.isNull = false)
    (h1 : tolower (primeiro l1) = ch 'e') (h2 : tolower (primeiro l2) = ch 'd') :
    (raiz.esq.dir.isNull = false →
      (∃ saida, explorarSalas raiz arv (l1 :: l2 :: resto) =
        explorarLoop resto raiz.esq.dir
          (entrarSala raiz.esq.pista (entrarSala raiz.pista arv)) saida) ∧
      (explorarSalas raiz arv [l1, l2]).atual = raiz.esq.dir) ∧
    (raiz.esq.dir.isNull = true → raiz.esq.esq.isNull = false →
      (∃ saida, explorarSalas raiz arv (l1 :: l2 :: resto) =
        explorarLoop resto raiz.esq
          (entrarSala raiz.esq.pista (entrarSala raiz.pista arv))
          (saida ++ [.direitaIndisponivel])) ∧
      (explorarSalas raiz arv [l1, l2]).atual = raiz.esq ∧
      Evento.direitaIndisponivel ∈ (explorarSalas raiz arv [l1, l2]).saida) ∧
    (raiz.esq.dir.isNull = true → raiz.esq.esq.isNull = true →
      ∃ saida, explorarSalas raiz arv (l1 :: l2 :: resto) =
        ⟨raiz.esq, entrarSala raiz.esq.pista (entrarSala raiz.pista arv), resto,
          saida ++ [.salaFolha]⟩ ∧
        Evento.direitaIndisponivel ∉ saida) := by
  cases raiz with
  | nil => simp [Sala.esq, Sala.isNull] at hesq
  | node n p e d =>
    cases e with
    | nil => simp [Sala.esq, Sala.isNull] at hesq
    | node n1 p1 e1 d1 =>
      have hroot : ∀ r, explorarSalas (.node n p (.node n1 p1 e1 d1) d) arv (l1 :: r) =
          explorarLoop r (.node n1 p1 e1 d1) (entrarSala p arv)
            ([] ++ anunciarSala n p ++ [.menu (opcao (.node n1 p1 e1 d1)) (opcao d)]) := by
        intro r
        simp only [explorarSalas, Sala.isNull, Bool.false_eq_true, if_false]
        exact explorarLoop_esq l1 r n p (.node n1 p1 e1 d1) d rfl h1 arv []
      simp only [Sala.esq, Sala.dir, Sala.pista]
      refine ⟨fun hd => ?_, fun hd he => ?_, fun hd he => ?_⟩
      · refine ⟨?_, ?_⟩
        · rw [hroot, explorarLoop_dir l2 resto n1 p1 e1 d1 hd h2]
          exact ⟨_, rfl⟩
        · rw [hroot, explorarLoop_dir l2 [] n1 p1 e1 d1 hd h2, explorarLoop_nil_atual]
      · have hnl : ¬ (e1.isNull = true ∧ d1.isNull = true) := by simp [he]
        refine ⟨?_, ?_, ?_⟩
        · rw [hroot, explorarLoop_dir_bloqueado l2 resto n1 p1 e1 d1 he hd h2]
          exact ⟨_, rfl⟩
        · rw [hroot, explorarLoop_dir_bloqueado l2 [] n1 p1 e1 d1 he hd h2,
            explorarLoop_nil_atual]
        · rw [hroot, explorarLoop_dir_bloqueado l2 [] n1 p1 e1 d1 he hd h2,
            explorarLoop_eof n1 p1 e1 d1 hnl]
          simp
      · have hl : e1.isNull = true ∧ d1.isNull = true := ⟨he, hd⟩
        have hs : tolower (primeiro l2) ≠ ch 's' := by rw [h2, ch_d, ch_s]; decide
        refine ⟨[] ++ anunciarSala n p ++ [.menu (opcao (.node n1 p1 e1 d1)) (opcao d)] ++
          anunciarSala n1 p1, ?_, ?_⟩
        · rw [hroot, explorarLoop]
          simp only [if_pos hl, if_neg hs]
        · simp only [List.nil_append, List.mem_append, List.mem_singleton, not_or]
          refine ⟨⟨?_, by simp⟩, ?_⟩ <;>
            exact not_mem_anunciarSala _ _ _ (by simp) (by simp) (by simp)

set_option maxRecDepth 100000 in
theorem explorar_left_then_right_witness :
    (Sala.node (cstr "Hall de Entrada") (cstr "Pegadas sujas perto da janela")
        (.node (cstr "Sala de Estar") (cstr "Retrato pendurado torto")
          (.node (cstr "Biblioteca") (cstr "Livro com anotacoes na margem") .nil .nil)
          (.node (cstr "Escritorio") (cstr "Caneta com tinta vermelha") .nil .nil))
        .nil).esq.isNull = false ∧
      tolower (primeiro (cstr "e\n")) = ch 'e' ∧ tolower (primeiro (cstr "D\n")) = ch 'd' ∧
      (explorarSalas (Sala.node (cstr "Hall de Entrada") (cstr "Pegadas sujas perto da janela")
        (.node (cstr "Sala de Estar") (cstr "Retrato pendurado torto")
          (.node (cstr "Biblioteca") (cstr "Livro com anotacoes na margem") .nil .nil)
          (.node (cstr "Escritorio") (cstr "Caneta com tinta vermelha") .nil .nil))
        .nil) .nil [cstr "e\n", cstr "D\n"]).atual =
        .node (cstr "Escritorio") (cstr "Caneta com tinta vermelha") .nil .nil :=
  ⟨by decide, by decide, by decide,
    ((explorar_left_then_right _ .nil (cstr "e\n") (cstr "D\n") [] (by decide) (by decide)
      (by decide)).1 (by decide)).2⟩

set_option maxRecDepth 100000 in
/-- C8, counterexample. The root has a left child that is a leaf: after `e` the command `d`
ends the exploration at the leaf (the third line is left unread) and nothing but the leaf
notice is printed, no "Caminho a direita indisponivel". -/
theorem explorar_right_at_leaf_not_blocked :
    (Sala.node (cstr "Hall de Entrada") []
        (.node (cstr "Sala de Estar") [] .nil .nil) .nil).esq.isNull = false ∧
      (Sala.node (cstr "Hall de Entrada") []
        (.node (cstr "Sala de Estar") [] .nil .nil) .nil).esq.dir.isNull = true ∧
      explorarSalas (Sala.node (cstr "Hall de Entrada") []
          (.node (cstr "Sala de Estar") [] .nil .nil) .nil) .nil
          [cstr "e\n", cstr "d\n", cstr "e\n"] =
        ⟨.node (cstr "Sala de Estar") [] .nil .nil, .nil, [cstr "e\n"],
          [.entrou (cstr "Hall de Entrada"), .nenhumaPista,
            .menu (some (cstr "Sala de Estar")) none,
            .entrou (cstr "Sala de Estar"), .nenhumaPista, .salaFolha]⟩ := by
  refine ⟨by decide, by decide, by decide⟩

/-- C9. At a non-leaf room (whose clue fits its buffer `char pista[MAX_PISTA]`), a blocked
movement or an invalid command keeps the loop in the same room with the ledger reached on
entering it, and entering the same room again leaves that ledger identical. -/
theorem explorar_blocked_or_invalid_no_change (nome pista : CStr) (esq dir : Sala)
    (arv : PistaNode) (linha : CStr) (resto : List CStr) (saida : List Evento)
    (hnl : ¬ (esq.isNull = true ∧ dir.isNull = true)) (hlen : pista.length < MAX_PISTA)
    (hcmd : (tolower (primeiro linha) = ch 'e' ∧ esq.isNull = true) ∨
      (tolower (primeiro linha) = ch 'd' ∧ dir.isNull = true) ∨
      (tolower (primeiro linha) ≠ ch 'e' ∧ tolower (primeiro linha) ≠ ch 'd' ∧
        tolower (primeiro linha) ≠ ch 's')) :
    (∃ aviso, explorarLoop (linha :: resto) (.node nome pista esq dir) arv saida =
        explorarLoop resto (.node nome pista esq dir) (entrarSala pista arv)
          (saida ++ anunciarSala nome pista ++ [.menu (opcao esq) (opcao dir)] ++ [aviso])) ∧
      entrarSala pista (entrarSala pista arv) = entrarSala pista arv := by
  refine ⟨?_, entrarSala_idem pista arv hlen⟩
  rcases hcmd with ⟨hc, he⟩ | ⟨hc, hd⟩ | ⟨h1, h2, h3⟩
  · have hd : dir.isNull = false := by
      cases h : dir.isNull
      · rfl
      · exact absurd ⟨he, h⟩ hnl
    exact ⟨_, explorarLoop_esq_bloqueado linha resto nome pista esq dir he hd hc arv saida⟩
  · have he : esq.isNull = false := by
      cases h : esq.isNull
      · rfl
      · exact absurd ⟨h, hd⟩ hnl
    exact ⟨_, explorarLoop_dir_bloqueado linha resto nome pista esq dir he hd hc arv saida⟩
  · exact ⟨_, explorarLoop_invalido linha resto nome pista esq dir hnl h1 h2 h3 arv saida⟩

theorem tolower_not_command (c : Nat)
    (h : c ∉ [ch 'e', ch 'd', ch 's', ch 'E', ch 'D', ch 'S']) :
    tolower c ≠ ch 'e' ∧ tolower c ≠ ch 'd' ∧ tolower c ≠ ch 's' := by
  have hE : ch 'E' = 69 := by decide
  have hD : ch 'D' = 68 := by decide
  have hS : ch 'S' = 83 := by decide
  simp only [ch_e, ch_d, ch_s, hE, hD, hS, List.mem_cons, List.mem_singleton, not_or,
    List.not_mem_nil, or_false] at h ⊢
  unfold tolower
  split_ifs <;> omega

theorem leiturasAux_cons_ne_nil (cap k : Nat) (b : Nat) (bs : List Nat) :
    leiturasAux cap k (b :: bs) ≠ [] := by
  rw [leiturasAux]
  split_ifs
  · simp
  · split <;> simp

theorem leiturasAux_eq_fgetsLer (cap : Nat) (stdin : List Nat) :
    ∀ k, 1 ≤ k → stdin ≠ [] →
      leiturasAux cap k stdin =
        (fgetsLer k stdin).1 :: leiturasAux cap cap (fgetsLer k stdin).2 := by
  induction stdin with
  | nil => intro k _ h; exact absurd rfl h
  | cons b bs ih =>
    intro k hk _
    obtain ⟨k, rfl⟩ : ∃ j, k = j + 1 := ⟨k - 1, by omega⟩
    rw [leiturasAux]
    by_cases hb : b = 10
    · simp [fgetsLer, hb]
    · by_cases hk1 : k + 1 ≤ 1
      · have hk0 : k = 0 := by omega
        subst hk0
        simp [fgetsLer, hb]
      · simp only [hb, hk1, or_self, if_false, fgetsLer, Nat.add_sub_cancel]
        cases bs with
        | nil =>
          cases k with
          | zero => omega
          | succ j => simp [leiturasAux, fgetsLer]
        | cons b2 bs2 =>
          rw [ih k (by omega) (by simp)]

/-- The sequence `leituras` is the one of the results of `fgets` called again and again on
what the call before left, until it returns `NULL`. -/
theorem leituras_eq_fgets (stdin : List Nat) :
    leituras stdin =
      match fgets TAM_LINHA stdin with
      | none => []
      | some r => r.1 :: leituras r.2 := by
  unfold fgets
  split_ifs with h
  · subst h; rfl
  · simp only [leituras]
    exact leiturasAux_eq_fgetsLer _ stdin _ (by decide) h

theorem leiturasAux_linha (cap : Nat) (corpo resto : List Nat) (h10 : 10 ∉ corpo) :
    ∀ k, leiturasAux cap k (corpo ++ 10 :: resto) =
      leiturasAux cap k (corpo ++ [10]) ++ leiturasAux cap cap resto := by
  induction corpo with
  | nil =>
    intro k
    simp [leiturasAux]
  | cons b bs ih =>
    intro k
    have hb : b ≠ 10 := fun h => h10 (by simp [h])
    have hbs : 10 ∉ bs := fun h => h10 (List.mem_cons_of_mem _ h)
    simp only [List.cons_append]
    rw [leiturasAux, leiturasAux]
    by_cases hk1 : k ≤ 1
    · simp only [hb, hk1, false_or, if_true, ih hbs, List.cons_append]
    · simp only [hb, hk1, or_self, if_false]
      rw [ih hbs (k - 1)]
      cases hl : leiturasAux cap (k - 1) (bs ++ [10]) with
      | nil =>
        exfalso
        cases bs with
        | nil => exact leiturasAux_cons_ne_nil cap (k - 1) 10 [] hl
        | cons c cs =>
          rw [List.cons_append] at hl
          exact leiturasAux_cons_ne_nil cap (k - 1) c (cs ++ [10]) hl
      | cons l ls => simp

theorem leiturasAux_cabe (cap : Nat) (corpo : List Nat) (h10 : 10 ∉ corpo) :
    ∀ k, corpo.length + 1 ≤ k → leiturasAux cap k (corpo ++ [10]) = [corpo ++ [10]] := by
  induction corpo with
  | nil =>
    intro k _
    simp [leiturasAux]
  | cons b bs ih =>
    intro k hk
    have hb : b ≠ 10 := fun h => h10 (by simp [h])
    have hbs : 10 ∉ bs := fun h => h10 (List.mem_cons_of_mem _ h)
    simp only [List.length_cons] at hk
    simp only [List.cons_append]
    rw [leiturasAux]
    have hk1 : ¬ k ≤ 1 := by omega
    simp only [hb, hk1, or_self, if_false]
    rw [ih hbs (k - 1) (by omega)]

theorem explorarLoop_invalidos (lidas : List CStr) (resto : List CStr) (nome pista : CStr)
    (esq dir : Sala) (hnl : ¬ (esq.isNull = true ∧ dir.isNull = true))
    (h : ∀ lida ∈ lidas, primeiro lida ∉ [ch 'e', ch 'd', ch 's', ch 'E', ch 'D', ch 'S']) :
    ∀ (arv : PistaNode) (saida : List Evento),
      explorarLoop (lidas ++ resto) (.node nome pista esq dir) arv saida =
        explorarLoop resto (.node nome pista esq dir)
          ((entrarSala pista)^[lidas.length] arv)
          ((fun s => s ++ anunciarSala nome pista ++ [.menu (opcao esq) (opcao dir)] ++
            [.comandoInvalido])^[lidas.length] saida) := by
  induction lidas with
  | nil => intro arv saida; rfl
  | cons l ls ih =>
    intro arv saida
    obtain ⟨h1, h2, h3⟩ := tolower_not_command _ (h l (List.mem_cons_self _ _))
    rw [List.cons_append, explorarLoop_invalido l _ nome pista esq dir hnl h1 h2 h3,
      ih (fun x hx => h x (List.mem_cons_of_mem _ hx))]
    rfl

/-- C10 (amended). At a non-leaf room `explorarSalas` reads the input in pieces, each the
result of one `fgets` into `char linha[32]` (a line of at most 31 bytes, newline included, is
one piece; a longer line is several), and acts on the first byte of each piece, lower-cased:
the bytes acted upon are `e`, `d`, `s` and `E`, `D`, `S`. For every piece whose first byte is
none of these six, hence for every input line of at most 31 bytes whose first byte is none of
them, and for every longer line (or rest of the input) all of whose pieces start with another
byte, it reports an invalid command, once for each piece, and goes on in the same room, where
it enters again. -/
theorem explorar_other_input_invalid (nome pista : CStr) (esq dir : Sala)
    (arv : PistaNode) (saida : List Evento)
    (hnl : ¬ (esq.isNull = true ∧ dir.isNull = true)) :
    (∀ (lida : CStr) (lidas : List CStr),
        primeiro lida ∉ [ch 'e', ch 'd', ch 's', ch 'E', ch 'D', ch 'S'] →
        explorarLoop (lida :: lidas) (.node nome pista esq dir) arv saida =
          explorarLoop lidas (.node nome pista esq dir) (entrarSala pista arv)
            (saida ++ anunciarSala nome pista ++ [.menu (opcao esq) (opcao dir)] ++
              [.comandoInvalido])) ∧
      (∀ (corpo resto : List Nat), 10 ∉ corpo → corpo.length + 1 < TAM_LINHA →
        primeiro (corpo ++ [10]) ∉ [ch 'e', ch 'd', ch 's', ch 'E', ch 'D', ch 'S'] →
        explorarLoop (leituras (corpo ++ 10 :: resto)) (.node nome pista esq dir) arv saida =
          explorarLoop (leituras resto) (.node nome pista esq dir) (entrarSala pista arv)
            (saida ++ anunciarSala nome pista ++ [.menu (opcao esq) (opcao dir)] ++
              [.comandoInvalido])) ∧
      (∀ (corpo resto : List Nat), 10 ∉ corpo →
        (∀ lida ∈ leituras (corpo ++ [10]),
          primeiro lida ∉ [ch 'e', ch 'd', ch 's', ch 'E', ch 'D', ch 'S']) →
        explorarLoop (leituras (corpo ++ 10 :: resto)) (.node nome pista esq dir) arv saida =
          explorarLoop (leituras resto) (.node nome pista esq dir)
            ((entrarSala pista)^[(leituras (corpo ++ [10])).length] arv)
            ((fun s => s ++ anunciarSala nome pista ++ [.menu (opcao esq) (opcao dir)] ++
              [.comandoInvalido])^[(leituras (corpo ++ [10])).length] saida)) ∧
      (∀ (linha : List Nat),
        (∀ lida ∈ leituras linha,
          primeiro lida ∉ [ch 'e', ch 'd', ch 's', ch 'E', ch 'D', ch 'S']) →
        explorarLoop (leituras linha) (.node nome pista esq dir) arv saida =
          explorarLoop [] (.node nome pista esq dir)
            ((entrarSala pista)^[(leituras linha).length] arv)
            ((fun s => s ++ anunciarSala nome pista ++ [.menu (opcao esq) (opcao dir)] ++
              [.comandoInvalido])^[(leituras linha).length] saida)) := by
  have hlinha : ∀ (corpo resto : List Nat), 10 ∉ corpo →
      leituras (corpo ++ 10 :: resto) = leituras (corpo ++ [10]) ++ leituras resto :=
    fun corpo resto h10 => leiturasAux_linha _ corpo resto h10 _
  refine ⟨fun lida lidas hc => ?_, fun corpo resto h10 hlen hc => ?_,
    fun corpo resto h10 hc => ?_, fun linha hc => ?_⟩
  · obtain ⟨h1, h2, h3⟩ := tolower_not_command _ hc
    exact explorarLoop_invalido lida lidas nome pista esq dir hnl h1 h2 h3 arv saida
  · have hum : leituras (corpo ++ [10]) = [corpo ++ [10]] :=
      leiturasAux_cabe _ corpo h10 _ (by simp only [TAM_LINHA] at hlen ⊢; omega)
    rw [hlinha corpo resto h10, hum]
    obtain ⟨h1, h2, h3⟩ := tolower_not_command _ hc
    exact explorarLoop_invalido _ _ nome pista esq dir hnl h1 h2 h3 arv saida
  · rw [hlinha corpo resto h10]
    exact explorarLoop_invalidos _ _ nome pista esq dir hnl hc arv saida
  · have := explorarLoop_invalidos (leituras linha) [] nome pista esq dir hnl hc arv saida
    rwa [List.append_nil] at this

set_option maxRecDepth 100000 in
/-- C10, counterexample. A line starting with `E`, which is none of `e`, `d`, `s`, moves the
exploration to the left child with no invalid command reported; and the line of 31 bytes `x`
followed by `e`, whose first byte is no command in either case, is read as two pieces, the
second of which moves the exploration to the left child. -/
theorem explorar_uppercase_E_moves_left :
    (primeiro (cstr "E\n") ∉ [ch 'e', ch 'd', ch 's'] ∧
      explorarSalas (Sala.node (cstr "Hall de Entrada") []
          (.node (cstr "Sala de Estar") [] .nil .nil)
          (.node (cstr "Cozinha") [] .nil .nil)) .nil (leituras (cstr "E\n")) =
        ⟨.node (cstr "Sala de Estar") [] .nil .nil, .nil, [],
          [.entrou (cstr "Hall de Entrada"), .nenhumaPista,
            .menu (some (cstr "Sala de Estar")) (some (cstr "Cozinha")),
            .entrou (cstr "Sala de Estar"), .nenhumaPista, .salaFolha]⟩) ∧
      (primeiro (List.replicate 31 (ch 'x') ++ cstr "e\n") ∉
          [ch 'e', ch 'd', ch 's', ch 'E', ch 'D', ch 'S'] ∧
        leituras (List.replicate 31 (ch 'x') ++ cstr "e\n") =
          [List.replicate 31 (ch 'x'), cstr "e\n"] ∧
        explorarSalas (Sala.node (cstr "Hall de Entrada") []
            (.node (cstr "Sala de Estar") [] .nil .nil)
            (.node (cstr "Cozinha") [] .nil .nil)) .nil
            (leituras (List.replicate 31 (ch 'x') ++ cstr "e\n")) =
          ⟨.node (cstr "Sala de Estar") [] .nil .nil, .nil, [],
            [.entrou (cstr "Hall de Entrada"), .nenhumaPista,
              .menu (some (cstr "Sala de Estar")) (some (cstr "Cozinha")),
              .comandoInvalido,
              .entrou (cstr "Hall de Entrada"), .nenhumaPista,
              .menu (some (cstr "Sala de Estar")) (some (cstr "Cozinha")),
              .entrou (cstr "Sala de Estar"), .nenhumaPista, .salaFolha]⟩) := by
  refine ⟨⟨by decide, by decide⟩, by decide, by decide, by decide⟩

set_option maxRecDepth 100000 in
theorem explorar_blocked_or_invalid_no_change_witness :
    ¬ ((Sala.node (cstr "Jardim") (cstr "Pegadas que levam ao portao") .nil .nil).isNull = true ∧
        Sala.nil.isNull = true) ∧
      (cstr "Chave enferrujada").length < MAX_PISTA ∧
      ((tolower (primeiro (cstr "d\n")) = ch 'e' ∧
          (Sala.node (cstr "Jardim") (cstr "Pegadas que levam ao portao") .nil .nil).isNull =
            true) ∨
        (tolower (primeiro (cstr "d\n")) = ch 'd' ∧ Sala.nil.isNull = true) ∨
        (tolower (primeiro (cstr "d\n")) ≠ ch 'e' ∧ tolower (primeiro (cstr "d\n")) ≠ ch 'd' ∧
          tolower (primeiro (cstr "d\n")) ≠ ch 's')) ∧
      ((∃ aviso, explorarLoop (cstr "d\n" :: [cstr "s\n"])
          (.node (cstr "Sotao") (cstr "Chave enferrujada")
            (.node (cstr "Jardim") (cstr "Pegadas que levam ao portao") .nil .nil) .nil)
          .nil [] =
          explorarLoop [cstr "s\n"]
            (.node (cstr "Sotao") (cstr "Chave enferrujada")
              (.node (cstr "Jardim") (cstr "Pegadas que levam ao portao") .nil .nil) .nil)
            (entrarSala (cstr "Chave enferrujada") .nil)
            ([] ++ anunciarSala (cstr "Sotao") (cstr "Chave enferrujada") ++
              [.menu (opcao (.node (cstr "Jardim") (cstr "Pegadas que levam ao portao")
                .nil .nil)) (opcao .nil)] ++ [aviso])) ∧
        entrarSala (cstr "Chave enferrujada") (entrarSala (cstr "Chave enferrujada") .nil) =
          entrarSala (cstr "Chave enferrujada") .nil) :=
  ⟨by decide, by decide, by decide,
    explorar_blocked_or_invalid_no_change (cstr "Sotao") (cstr "Chave enferrujada")
      (.node (cstr "Jardim") (cstr "Pegadas que levam ao portao") .nil .nil) .nil .nil
      (cstr "d\n") [cstr "s\n"] [] (by decide) (by decide) (by decide)⟩

set_option maxRecDepth 100000 in
theorem explorar_other_input_invalid_witness :
    ¬ ((Sala.node (cstr "Jardim") [] .nil .nil).isNull = true ∧ Sala.nil.isNull = true) ∧
      10 ∉ cstr "xyz" ∧ (cstr "xyz").length + 1 < TAM_LINHA ∧
      primeiro (cstr "xyz" ++ [10]) ∉ [ch 'e', ch 'd', ch 's', ch 'E', ch 'D', ch 'S'] ∧
      explorarLoop (leituras (cstr "xyz" ++ 10 :: cstr "s\n"))
          (.node (cstr "Sotao") (cstr "Chave enferrujada")
            (.node (cstr "Jardim") [] .nil .nil) .nil) .nil [] =
        explorarLoop (leituras (cstr "s\n"))
          (.node (cstr "Sotao") (cstr "Chave enferrujada")
            (.node (cstr "Jardim") [] .nil .nil) .nil)
          (entrarSala (cstr "Chave enferrujada") .nil)
          ([] ++ anunciarSala (cstr "Sotao") (cstr "Chave enferrujada") ++
            [.menu (opcao (.node (cstr "Jardim") [] .nil .nil)) (opcao .nil)] ++
            [.comandoInvalido]) :=
  ⟨by decide, by decide, by decide, by decide,
    (explorar_other_input_invalid (cstr "Sotao") (cstr "Chave enferrujada")
      (.node (cstr "Jardim") [] .nil .nil) .nil .nil [] (by decide)).2.1
      (cstr "xyz") (cstr "s\n") (by decide) (by decide) (by decide)⟩

/-! ## End of input, leaf rooms -/

theorem explorarLoop_eof_as_exit (cs : List CStr) (l : CStr)
    (hl : tolower (primeiro l) = ch 's') (atual : Sala) (arv : PistaNode)
    (saida : List Evento) :
    (explorarLoop (cs ++ [l]) atual arv saida).arvorePistas =
        (explorarLoop cs atual arv saida).arvorePistas ∧
      (explorarLoop (cs ++ [l]) atual arv saida).atual =
        (explorarLoop cs atual arv saida).atual := by
  induction cs generalizing atual arv saida with
  | nil =>
    cases atual with
    | nil => simp [explorarLoop]
    | node n p e d =>
      by_cases hleaf : e.isNull = true ∧ d.isNull = true
      · obtain ⟨r1, f1, h1, _, _⟩ := explorarLoop_folha ([] ++ [l]) n p e d hleaf arv saida
        obtain ⟨r2, f2, h2, _, _⟩ := explorarLoop_folha [] n p e d hleaf arv saida
        rw [h1, h2]
        exact ⟨rfl, rfl⟩
      · rw [List.nil_append, explorarLoop_sair l [] n p e d hleaf hl,
          explorarLoop_eof n p e d hleaf]
        exact ⟨rfl, rfl⟩
  | cons c cs ih =>
    cases atual with
    | nil => simp [explorarLoop]
    | node n p e d =>
      rw [List.cons_append]
      by_cases hleaf : e.isNull = true ∧ d.isNull = true
      · obtain ⟨r1, f1, h1, _, _⟩ :=
          explorarLoop_folha (c :: (cs ++ [l])) n p e d hleaf arv saida
        obtain ⟨r2, f2, h2, _, _⟩ := explorarLoop_folha (c :: cs) n p e d hleaf arv saida
        rw [h1, h2]
        exact ⟨rfl, rfl⟩
      · by_cases he : tolower (primeiro c) = ch 'e'
        · cases hen : e.isNull with
          | false =>
            rw [explorarLoop_esq c _ n p e d hen he, explorarLoop_esq c _ n p e d hen he]
            exact ih _ _ _
          | true =>
            have hdn : d.isNull = false := by
              cases h : d.isNull
              · rfl
              · exact absurd ⟨hen, h⟩ hleaf
            rw [explorarLoop_esq_bloqueado c _ n p e d hen hdn he,
              explorarLoop_esq_bloqueado c _ n p e d hen hdn he]
            exact ih _ _ _
        · by_cases hd : tolower (primeiro c) = ch 'd'
          · cases hdn : d.isNull with
            | false =>
              rw [explorarLoop_dir c _ n p e d hdn hd, explorarLoop_dir c _ n p e d hdn hd]
              exact ih _ _ _
            | true =>
              have hen : e.isNull = false := by
                cases h : e.isNull
                · rfl
                · exact absurd ⟨h, hdn⟩ hleaf
              rw [explorarLoop_dir_bloqueado c _ n p e d hen hdn hd,
                explorarLoop_dir_bloqueado c _ n p e d hen hdn hd]
              exact ih _ _ _
          · by_cases hs : tolower (primeiro c) = ch 's'
            · rw [explorarLoop_sair c _ n p e d hleaf hs, explorarLoop_sair c _ n p e d hleaf hs]
              exact ⟨rfl, rfl⟩
            · rw [explorarLoop_invalido c _ n p e d hleaf he hd hs,
                explorarLoop_invalido c _ n p e d hleaf he hd hs]
              exact ih _ _ _

/-- C11. End of input is treated as exit: for every room tree, starting ledger and command
sequence `cs`, `explorarSalas` on `cs` followed by a line asking to exit (first byte `s` or
`S`) ends with the same ledger and in the same room as on `cs` followed by end of input. -/
theorem explorar_end_of_input_as_exit (raiz : Sala) (arv : PistaNode) (cs : List CStr)
    (l : CStr) (hl : tolower (primeiro l) = ch 's') :
    (explorarSalas raiz arv (cs ++ [l])).arvorePistas =
        (explorarSalas raiz arv cs).arvorePistas ∧
      (explorarSalas raiz arv (cs ++ [l])).atual = (explorarSalas raiz arv cs).atual := by
  unfold explorarSalas
  split_ifs
  · exact ⟨rfl, rfl⟩
  · exact explorarLoop_eof_as_exit cs l hl raiz arv []

set_option maxRecDepth 100000 in
theorem explorar_end_of_input_as_exit_witness :
    tolower (primeiro (cstr "s\n")) = ch 's' ∧
      (explorarSalas (.node (cstr "Hall de Entrada") (cstr "Pegadas sujas perto da janela")
          (.node (cstr "Sala de Estar") (cstr "Retrato pendurado torto") .nil .nil)
          (.node (cstr "Cozinha") (cstr "Vasilha quebrada no chao")
            (.node (cstr "Quarto") (cstr "Fio de tecido azul") .nil .nil) .nil)) .nil
          ([cstr "x\n", cstr "d\n"] ++ [cstr "s\n"])).arvorePistas =
        (explorarSalas (.node (cstr "Hall de Entrada") (cstr "Pegadas sujas perto da janela")
          (.node (cstr "Sala de Estar") (cstr "Retrato pendurado torto") .nil .nil)
          (.node (cstr "Cozinha") (cstr "Vasilha quebrada no chao")
            (.node (cstr "Quarto") (cstr "Fio de tecido azul") .nil .nil) .nil)) .nil
          [cstr "x\n", cstr "d\n"]).arvorePistas ∧
      (explorarSalas (.node (cstr "Hall de Entrada") (cstr "Pegadas sujas perto da janela")
          (.node (cstr "Sala de Estar") (cstr "Retrato pendurado torto") .nil .nil)
          (.node (cstr "Cozinha") (cstr "Vasilha quebrada no chao")
            (.node (cstr "Quarto") (cstr "Fio de tecido azul") .nil .nil) .nil)) .nil
          ([cstr "x\n", cstr "d\n"] ++ [cstr "s\n"])).atual =
        (explorarSalas (.node (cstr "Hall de Entrada") (cstr "Pegadas sujas perto da janela")
          (.node (cstr "Sala de Estar") (cstr "Retrato pendurado torto") .nil .nil)
          (.node (cstr "Cozinha") (cstr "Vasilha quebrada no chao")
            (.node (cstr "Quarto") (cstr "Fio de tecido azul") .nil .nil) .nil)) .nil
          [cstr "x\n", cstr "d\n"]).atual :=
  ⟨by decide, explorar_end_of_input_as_exit _ .nil [cstr "x\n", cstr "d\n"] (cstr "s\n")
    (by decide)⟩

/-- C12. A leaf room is terminal: whatever the input (any line, or the end of input), the
loop entered at a room without children inserts its clue, if any, prints the leaf notice and
ends there: the room is the last one, the ledger is the one reached on entering it, at most
one line is taken from the input and no other room is announced. -/
theorem explorar_leaf_is_terminal (stdin : List CStr) (nome pista : CStr) (arv : PistaNode)
    (saida : List Evento) :
    ∃ fim, (fim = [] ∨ fim = [Evento.encerradaPeloJogador]) ∧
      explorarLoop stdin (.node nome pista .nil .nil) arv saida =
        ⟨.node nome pista .nil .nil, entrarSala pista arv, stdin.tail,
          saida ++ anunciarSala nome pista ++ [.salaFolha] ++ fim⟩ := by
  obtain ⟨resto, fim, h, hfim, hresto⟩ :=
    explorarLoop_folha stdin nome pista .nil .nil ⟨rfl, rfl⟩ arv saida
  exact ⟨fim, hfim, by rw [h, hresto]⟩

/-! ## Growth of the ledger -/

theorem exibirPistas_sublist_inserirPista (t : PistaNode) (c : CStr) :
    (exibirPistas t).Sublist (exibirPistas (inserirPista t c)) := by
  by_cases hc : c = []
  · subst hc; rw [inserirPista_empty]
  induction t with
  | nil => simp [exibirPistas]
  | node k l r ihl ihr =>
    rw [inserirPista_node k l r c hc]
    split_ifs with h1 h2
    · simp only [exibirPistas]
      exact List.Sublist.append ihl (List.Sublist.refl _)
    · simp only [exibirPistas]
      exact List.Sublist.append (List.Sublist.refl _) (List.Sublist.cons₂ _ ihr)
    · exact List.Sublist.refl _

theorem length_exibirPistas_inserirPista (t : PistaNode) (c : CStr) :
    (exibirPistas (inserirPista t c)).length ≤ (exibirPistas t).length + 1 := by
  by_cases hc : c = []
  · subst hc; rw [inserirPista_empty]; omega
  induction t with
  | nil => rw [inserirPista_nil c hc]; simp [exibirPistas]
  | node k l r ihl ihr =>
    rw [inserirPista_node k l r c hc]
    split_ifs with h1 h2
    · simp only [exibirPistas, List.length_append, List.length_cons] at ihl ⊢
      omega
    · simp only [exibirPistas, List.length_append, List.length_cons] at ihr ⊢
      omega
    · omega

theorem mem_exibirPistas_inserirPista_self (t : PistaNode) (c : CStr) (hc : c ≠ [])
    (hlen : c.length < MAX_PISTA) : c ∈ exibirPistas (inserirPista t c) := by
  induction t with
  | nil =>
    rw [inserirPista_nil c hc, strncpy_of_length_lt _ _ hlen]
    simp [exibirPistas]
  | node k l r ihl ihr =>
    rw [inserirPista_node k l r c hc]
    split_ifs with h1 h2
    · simp only [exibirPistas, List.mem_append, List.mem_cons]
      exact Or.inl ihl
    · simp only [exibirPistas, List.mem_append, List.mem_cons]
      exact Or.inr (Or.inr ihr)
    · have h0 : strcmp c k = 0 := by omega
      rw [(strcmp_eq_zero_iff c k).mp h0]
      simp [exibirPistas]

theorem mem_exibirPistas_inserirPista_iff (t : PistaNode) (c x : CStr) (hc : c ≠ [])
    (hlen : c.length < MAX_PISTA) :
    x ∈ exibirPistas (inserirPista t c) ↔ x ∈ exibirPistas t ∨ x = c := by
  constructor
  · intro hx
    rcases mem_exibirPistas_inserirPista t c x hx with h | h
    · exact Or.inl h
    · rw [strncpy_of_length_lt _ _ hlen] at h; exact Or.inr h
  · rintro (h | h)
    · exact (exibirPistas_sublist_inserirPista t c).subset h
    · rw [h]; exact mem_exibirPistas_inserirPista_self t c hc hlen

/-- C14 (amended). For every ledger and every clue, the clues listed before `inserirPista`
are still listed afterwards, in the same order, and the listing grows by at most one entry;
when the clue `c` is not empty and has at most 127 bytes, the set of clues contained
afterwards is the set contained before together with `c`. -/
theorem inserirPista_adds_only_the_clue (t : PistaNode) (c : CStr) :
    (exibirPistas t).Sublist (exibirPistas (inserirPista t c)) ∧
      (exibirPistas t).length ≤ (exibirPistas (inserirPista t c)).length ∧
      (exibirPistas (inserirPista t c)).length ≤ (exibirPistas t).length + 1 ∧
      (c ≠ [] → c.length < MAX_PISTA →
        ∀ x, x ∈ exibirPistas (inserirPista t c) ↔ x ∈ exibirPistas t ∨ x = c) := by
  refine ⟨exibirPistas_sublist_inserirPista t c,
    (exibirPistas_sublist_inserirPista t c).length_le,
    length_exibirPistas_inserirPista t c, fun hc hlen x => ?_⟩
  exact mem_exibirPistas_inserirPista_iff t c x hc hlen

theorem inserirPista_adds_only_the_clue_witness :
    cstr "Anel" ≠ [] ∧ (cstr "Anel").length < MAX_PISTA ∧
      ∀ x, x ∈ exibirPistas (inserirPista (inserirTodas [cstr "Chave", cstr "Faca"])
          (cstr "Anel")) ↔
        x ∈ exibirPistas (inserirTodas [cstr "Chave", cstr "Faca"]) ∨ x = cstr "Anel" :=
  ⟨by decide, by decide,
    (inserirPista_adds_only_the_clue (inserirTodas [cstr "Chave", cstr "Faca"])
      (cstr "Anel")).2.2.2 (by decide) (by decide)⟩

set_option maxRecDepth 100000 in
/-- C14, counterexample. After inserting a clue of 128 bytes `a` into the empty ledger the
clue itself is not contained: the only entry is its first 127 bytes. -/
theorem inserirPista_long_clue_not_contained :
    List.replicate 128 97 ≠ [] ∧
      exibirPistas (inserirPista .nil (List.replicate 128 97)) = [List.replicate 127 97] ∧
      List.replicate 128 97 ∉ exibirPistas (inserirPista .nil (List.replicate 128 97)) := by
  refine ⟨by decide, by decide, by decide⟩

/-! ## The hash function -/

theorem hash_acc_eq_foldl (h : Nat) (str : CStr) :
    hash_acc h str = str.foldl (fun acc byte => (acc * 33 + byte) % 2 ^ 64) h := by
  induction str generalizing h with
  | nil => rfl
  | cons c str ih =>
    simp only [hash_acc, List.foldl_cons]
    rw [ih]
    congr 1
    omega

theorem le_foldl_hash (h : Nat) (str : CStr) :
    h ≤ str.foldl (fun acc byte => acc * 33 + byte) h := by
  induction str generalizing h with
  | nil => exact Nat.le_refl _
  | cons c str ih =>
    simp only [List.foldl_cons]
    exact Nat.le_trans (by omega) (ih (h * 33 + c))

theorem foldl_wrap_eq (h : Nat) (str : CStr)
    (hlt : str.foldl (fun acc byte => acc * 33 + byte) h < 2 ^ 64) :
    str.foldl (fun acc byte => (acc * 33 + byte) % 2 ^ 64) h =
      str.foldl (fun acc byte => acc * 33 + byte) h := by
  induction str generalizing h with
  | nil => rfl
  | cons c str ih =>
    simp only [List.foldl_cons] at hlt ⊢
    have h1 : h * 33 + c < 2 ^ 64 := Nat.lt_of_le_of_lt (le_foldl_hash _ str) hlt
    rw [Nat.mod_eq_of_lt h1]
    exact ih _ hlt

/-- C15 (amended). For every clue text, `hash_string` returns the value obtained by starting
an accumulator at 5381, updating it to `accumulator * 33 + byte` reduced modulo `2 ^ 64` (the
arithmetic of `unsigned long`) for each byte in order, and taking the final accumulator modulo
101; the result is a bucket index in the range 0..100; and it is the value computed without
any reduction whenever that accumulator stays below `2 ^ 64`. -/
theorem hash_string_is_wrapping_djb2 (str : CStr) :
    hash_string str = hash_wrap str ∧ hash_string str < HASH_TABLE_SIZE ∧
      (str.foldl (fun acc byte => acc * 33 + byte) 5381 < 2 ^ 64 →
        hash_string str = hash_spec str) := by
  have h1 : hash_string str = hash_wrap str := by
    unfold hash_string hash_wrap
    rw [hash_acc_eq_foldl]
    rfl
  refine ⟨h1, Nat.mod_lt _ (by decide), fun hlt => ?_⟩
  rw [h1]
  unfold hash_wrap hash_spec
  rw [foldl_wrap_eq _ _ hlt]

set_option maxRecDepth 100000 in
theorem hash_string_is_wrapping_djb2_witness :
    (cstr "Chave").foldl (fun acc byte => acc * 33 + byte) 5381 < 2 ^ 64 ∧
      hash_string (cstr "Chave") = hash_spec (cstr "Chave") :=
  ⟨by decide, (hash_string_is_wrapping_djb2 (cstr "Chave")).2.2 (by decide)⟩

set_option maxRecDepth 100000 in
/-- C15, counterexample. For the clue "Pegadas sujas perto da janela" of the hall the code
returns bucket 4, while the accumulator that never wraps has the remainder 71 modulo 101. -/
theorem hash_string_differs_from_unbounded :
    hash_string (cstr "Pegadas sujas perto da janela") = 4 ∧
      hash_spec (cstr "Pegadas sujas perto da janela") = 71 := by
  refine ⟨by decide, by decide⟩

/-! ## Shape of the table -/

theorem sobrescrever_eq_none (k s : CStr) (cadeia : List HashEntry)
    (h : sobrescrever k s cadeia = none) : ∀ e ∈ cadeia, e.pista ≠ k := by
  induction cadeia with
  | nil => simp
  | cons cur prox ih =>
    simp only [sobrescrever] at h
    split_ifs at h with h1
    simp only [Option.map_eq_none'] at h
    intro e he
    rcases List.mem_cons.mp he with rfl | he
    · intro heq
      exact h1 ((strcmp_eq_zero_iff _ _).mpr heq)
    · exact ih h e he

/-- Every entry sits in the bucket of its key and no chain holds a key twice. -/
theorem tabela_inv_inserirNaHash (ht : HashTable) (k s : CStr) (hlen : k.length < MAX_PISTA)
    (hb : ∀ i, ∀ e ∈ ht i, bucketIdx e.pista = i)
    (hn : ∀ i, ((ht i).map HashEntry.pista).Nodup) :
    (∀ i, ∀ e ∈ inserirNaHash ht k s i, bucketIdx e.pista = i) ∧
      (∀ i, ((inserirNaHash ht k s i).map HashEntry.pista).Nodup) := by
  unfold inserirNaHash
  split_ifs with hk
  · exact ⟨hb, hn⟩
  · simp only
    cases hs : sobrescrever k s (ht (bucketIdx k)) with
    | some cadeia =>
      have hm := sobrescrever_map_pista _ _ _ _ hs
      simp only
      refine ⟨fun i e he => ?_, fun i => ?_⟩
      · by_cases hi : i = bucketIdx k
        · subst hi
          rw [setBucket_same] at he
          have : e.pista ∈ cadeia.map HashEntry.pista := List.mem_map_of_mem _ he
          rw [hm, List.mem_map] at this
          obtain ⟨e2, he2, heq⟩ := this
          rw [← heq]
          exact hb _ e2 he2
        · rw [setBucket_other _ _ _ _ hi] at he
          exact hb i e he
      · by_cases hi : i = bucketIdx k
        · subst hi
          rw [setBucket_same, hm]
          exact hn _
        · rw [setBucket_other _ _ _ _ hi]
          exact hn i
    | none =>
      have hnot := sobrescrever_eq_none _ _ _ hs
      simp only
      refine ⟨fun i e he => ?_, fun i => ?_⟩
      · by_cases hi : i = bucketIdx k
        · subst hi
          rw [setBucket_same] at he
          rcases List.mem_cons.mp he with rfl | he
          · simp only [strncpy_of_length_lt _ _ hlen]
          · exact hb _ e he
        · rw [setBucket_other _ _ _ _ hi] at he
          exact hb i e he
      · by_cases hi : i = bucketIdx k
        · subst hi
          rw [setBucket_same]
          simp only [List.map_cons, List.nodup_cons, strncpy_of_length_lt _ _ hlen]
          refine ⟨?_, hn _⟩
          intro hmem
          rw [List.mem_map] at hmem
          obtain ⟨e2, he2, heq⟩ := hmem
          exact hnot e2 he2 heq
        · rw [setBucket_other _ _ _ _ hi]
          exact hn i

theorem tabela_inv_foldl (calls : List (CStr × CStr)) (ht : HashTable)
    (hlen : ∀ q ∈ calls, q.1.length < MAX_PISTA)
    (hb : ∀ i, ∀ e ∈ ht i, bucketIdx e.pista = i)
    (hn : ∀ i, ((ht i).map HashEntry.pista).Nodup) :
    (∀ i, ∀ e ∈ calls.foldl (fun ht q => inserirNaHash ht q.1 q.2) ht i,
        bucketIdx e.pista = i) ∧
      (∀ i, ((calls.foldl (fun ht q => inserirNaHash ht q.1 q.2) ht i).map
        HashEntry.pista).Nodup) := by
  induction calls generalizing ht with
  | nil => exact ⟨hb, hn⟩
  | cons q qs ih =>
    simp only [List.foldl_cons]
    obtain ⟨hb2, hn2⟩ :=
      tabela_inv_inserirNaHash ht q.1 q.2 (hlen q (List.mem_cons_self _ _)) hb hn
    exact ih _ (fun r hr => hlen r (List.mem_cons_of_mem _ hr)) hb2 hn2

/-- C17. An empty clue is never stored: `inserirPista` with the empty clue returns the ledger
unchanged, and `inserirNaHash` with the empty clue leaves the table unchanged. -/
theorem empty_clue_is_ignored (raiz : PistaNode) (ht : HashTable) (suspeito : CStr) :
    inserirPista raiz [] = raiz ∧ inserirNaHash ht [] suspeito = ht := by
  refine ⟨inserirPista_empty raiz, ?_⟩
  unfold inserirNaHash
  simp

/-- C18. `verificarSuspeitoFinal` returns 0 for every accused name and every table when the
ledger is empty, and returns 0 whenever no clue of the ledger is mapped by the table to the
accused name. -/
theorem verificarSuspeitoFinal_zero (arvorePistas : PistaNode) (ht : HashTable)
    (acusado : CStr) :
    verificarSuspeitoFinal .nil ht acusado = 0 ∧
      ((∀ p ∈ exibirPistas arvorePistas, encontrarSuspeito ht p ≠ some acusado) →
        verificarSuspeitoFinal arvorePistas ht acusado = 0) := by
  refine ⟨rfl, fun h => ?_⟩
  cases arvorePistas with
  | nil => rfl
  | node k l r =>
    simp only [verificarSuspeitoFinal]
    rw [bst_traverse_inorder_contador]
    simp only [Nat.zero_add, List.countP_eq_zero, decide_eq_true_eq]
    exact h

set_option maxRecDepth 100000 in
theorem verificarSuspeitoFinal_zero_witness :
    (∀ p ∈ exibirPistas (inserirTodas [cstr "Fio de tecido azul", cstr "Chave enferrujada"]),
        encontrarSuspeito (popular [(cstr "Fio de tecido azul", cstr "Jovem Green"),
          (cstr "Chave enferrujada", cstr "Sr. Black")]) p ≠ some (cstr "Prof. Plum")) ∧
      verificarSuspeitoFinal (inserirTodas [cstr "Fio de tecido azul", cstr "Chave enferrujada"])
        (popular [(cstr "Fio de tecido azul", cstr "Jovem Green"),
          (cstr "Chave enferrujada", cstr "Sr. Black")]) (cstr "Prof. Plum") = 0 :=
  ⟨by decide, (verificarSuspeitoFinal_zero _ _ _).2 (by decide)⟩

/-- C19 (amended). `inserirNaHash` only affects its own key and the first 127 bytes of it:
for every table, clue `c`, suspect `s` and every clue `c2` different from `c` and from the
first 127 bytes of `c` (for a `c` that fits the buffer: different from `c`),
`encontrarSuspeito (c2)` returns the same result after `inserirNaHash (c, s)` as before it,
also when both fall in the same bucket. -/
theorem inserirNaHash_frame (ht : HashTable) (c s c2 : CStr) (hne : c2 ≠ c)
    (hstored : c2 ≠ strncpy MAX_PISTA c) :
    encontrarSuspeito (inserirNaHash ht c s) c2 = encontrarSuspeito ht c2 :=
  encontrarSuspeito_inserirNaHash_other ht c s c2 (fun h => hne h.symm)
    (fun h => hstored h.symm)

set_option maxRecDepth 100000 in
theorem inserirNaHash_frame_witness :
    cstr "Chave enferrujada" ≠ cstr "au" ∧
      cstr "Chave enferrujada" ≠ strncpy MAX_PISTA (cstr "au") ∧
      bucketIdx (cstr "Chave enferrujada") = bucketIdx (cstr "au") ∧
      encontrarSuspeito (inserirNaHash (popular [(cstr "Chave enferrujada", cstr "Sr. Black")])
          (cstr "au") (cstr "Sra. White")) (cstr "Chave enferrujada") =
        encontrarSuspeito (popular [(cstr "Chave enferrujada", cstr "Sr. Black")])
          (cstr "Chave enferrujada") :=
  ⟨by decide, by decide, by decide, inserirNaHash_frame _ _ _ _ (by decide) (by decide)⟩

set_option maxRecDepth 100000 in
/-- C19, counterexample. In the empty table the clue made of 127 bytes `h` is not found;
after `inserirNaHash` with the different key made of those 127 bytes and one `C` it is found,
with the suspect given for the other key. -/
theorem inserirNaHash_changes_truncation_of_key :
    List.replicate 127 104 ≠ List.replicate 127 104 ++ cstr "C" ∧
      encontrarSuspeito initHash (List.replicate 127 104) = none ∧
      encontrarSuspeito (inserirNaHash initHash (List.replicate 127 104 ++ cstr "C")
        (cstr "Sr. Black")) (List.replicate 127 104) = some (cstr "Sr. Black") := by
  refine ⟨by decide, by decide, by decide⟩

/-! ## The rooms entered -/

theorem explorar_induction {motive : List CStr → Sala → Prop}
    (hnil : ∀ stdin, motive stdin .nil)
    (hfolha : ∀ stdin n p e d, (e.isNull = true ∧ d.isNull = true) →
      motive stdin (.node n p e d))
    (heof : ∀ n p e d, ¬ (e.isNull = true ∧ d.isNull = true) → motive [] (.node n p e d))
    (hesq : ∀ c resto n p e d, e.isNull = false → tolower (primeiro c) = ch 'e' →
      motive resto e → motive (c :: resto) (.node n p e d))
    (hdir : ∀ c resto n p e d, d.isNull = false → tolower (primeiro c) = ch 'd' →
      motive resto d → motive (c :: resto) (.node n p e d))
    (hfica : ∀ c resto n p e d, ¬ (e.isNull = true ∧ d.isNull = true) → Fica c e d →
      motive resto (.node n p e d) → motive (c :: resto) (.node n p e d))
    (hsair : ∀ c resto n p e d, ¬ (e.isNull = true ∧ d.isNull = true) →
      tolower (primeiro c) = ch 's' → motive (c :: resto) (.node n p e d))
    (stdin : List CStr) (atual : Sala) : motive stdin atual := by
  induction stdin generalizing atual with
  | nil =>
    cases atual with
    | nil => exact hnil _
    | node n p e d =>
      by_cases hleaf : e.isNull = true ∧ d.isNull = true
      · exact hfolha _ n p e d hleaf
      · exact heof n p e d hleaf
  | cons c cs ih =>
    cases atual with
    | nil => exact hnil _
    | node n p e d =>
      by_cases hleaf : e.isNull = true ∧ d.isNull = true
      · exact hfolha _ n p e d hleaf
      · by_cases he : tolower (primeiro c) = ch 'e'
        · cases hen : e.isNull with
          | false => exact hesq c cs n p e d hen he (ih e)
          | true => exact hfica c cs n p e d hleaf (Or.inl ⟨he, hen⟩) (ih _)
        · by_cases hd : tolower (primeiro c) = ch 'd'
          · cases hdn : d.isNull with
            | false => exact hdir c cs n p e d hdn hd (ih d)
            | true => exact hfica c cs n p e d hleaf (Or.inr (Or.inl ⟨hd, hdn⟩)) (ih _)
          · by_cases hs : tolower (primeiro c) = ch 's'
            · exact hsair c cs n p e d hleaf hs
            · exact hfica c cs n p e d hleaf (Or.inr (Or.inr ⟨he, hd, hs⟩)) (ih _)

theorem explorarLoop_fica (linha : CStr) (resto : List CStr) (nome pista : CStr)
    (esq dir : Sala) (hnl : ¬ (esq.isNull = true ∧ dir.isNull = true))
    (hf : Fica linha esq dir) (arv : PistaNode) (saida : List Evento) :
    ∃ aviso, salasAnunciadas [aviso] = [] ∧
      explorarLoop (linha :: resto) (.node nome pista esq dir) arv saida =
        explorarLoop resto (.node nome pista esq dir) (entrarSala pista arv)
          (saida ++ anunciarSala nome pista ++ [.menu (opcao esq) (opcao dir)] ++ [aviso]) := by
  rcases hf with ⟨hc, he⟩ | ⟨hc, hd⟩ | ⟨h1, h2, h3⟩
  · have hd : dir.isNull = false := by
      cases h : dir.isNull
      · rfl
      · exact absurd ⟨he, h⟩ hnl
    exact ⟨.esquerdaIndisponivel, rfl, explorarLoop_esq_bloqueado linha resto nome pista esq dir he hd hc arv saida⟩
  · have he : esq.isNull = false := by
      cases h : esq.isNull
      · rfl
      · exact absurd ⟨h, hd⟩ hnl
    exact ⟨.direitaIndisponivel, rfl, explorarLoop_dir_bloqueado linha resto nome pista esq dir he hd hc arv saida⟩
  · exact ⟨.comandoInvalido, rfl, explorarLoop_invalido linha resto nome pista esq dir hnl h1 h2 h3 arv saida⟩

theorem percurso_folha (stdin : List CStr) (n p : CStr) (e d : Sala)
    (hl : e.isNull = true ∧ d.isNull = true) : percurso stdin (.node n p e d) = [[]] := by
  cases stdin <;> simp [percurso, hl]

theorem percurso_eof (n p : CStr) (e d : Sala) :
    percurso [] (.node n p e d) = [[]] := by
  rw [percurso]
  split_ifs <;> rfl

theorem percurso_esq (c : CStr) (resto : List CStr) (n p : CStr) (e d : Sala)
    (he : e.isNull = false) (hc : tolower (primeiro c) = ch 'e') :
    percurso (c :: resto) (.node n p e d) =
      [] :: (percurso resto e).map (fun q => false :: q) := by
  rw [percurso]
  simp [he, hc]

theorem percurso_dir (c : CStr) (resto : List CStr) (n p : CStr) (e d : Sala)
    (hd : d.isNull = false) (hc : tolower (primeiro c) = ch 'd') :
    percurso (c :: resto) (.node n p e d) =
      [] :: (percurso resto d).map (fun q => true :: q) := by
  rw [percurso]
  simp [hd, hc, ch_e, ch_d]

theorem percurso_sair (c : CStr) (resto : List CStr) (n p : CStr) (e d : Sala)
    (hc : tolower (primeiro c) = ch 's') :
    percurso (c :: resto) (.node n p e d) = [[]] := by
  rw [percurso]
  split_ifs <;> simp [hc, ch_e, ch_d, ch_s]

theorem percurso_fica (c : CStr) (resto : List CStr) (n p : CStr) (e d : Sala)
    (hnl : ¬ (e.isNull = true ∧ d.isNull = true)) (hf : Fica c e d) :
    percurso (c :: resto) (.node n p e d) = [] :: percurso resto (.node n p e d) := by
  rw [percurso]
  simp only [if_neg hnl]
  rcases hf with ⟨hc, he⟩ | ⟨hc, hd⟩ | ⟨h1, h2, h3⟩
  · simp [hc, he]
  · simp [hc, hd, ch_e, ch_d]
  · simp [h1, h2, h3]

theorem salasAnunciadas_append (l1 l2 : List Evento) :
    salasAnunciadas (l1 ++ l2) = salasAnunciadas l1 ++ salasAnunciadas l2 := by
  simp [salasAnunciadas]

theorem salasAnunciadas_anunciarSala (n p : CStr) :
    salasAnunciadas (anunciarSala n p) = [n] := by
  unfold anunciarSala salasAnunciadas
  split_ifs <;> rfl

theorem salasAnunciadas_outros :
    salasAnunciadas [] = [] ∧
      (∀ l, salasAnunciadas (.salaFolha :: l) = salasAnunciadas l) ∧
      (∀ l, salasAnunciadas (.encerradaPeloJogador :: l) = salasAnunciadas l) ∧
      ∀ x y l, salasAnunciadas (.menu x y :: l) = salasAnunciadas l :=
  ⟨rfl, fun _ => rfl, fun _ => rfl, fun _ _ _ => rfl⟩

theorem Sala.em_false (n p : CStr) (e d : Sala) (q : List Bool) :
    (Sala.node n p e d).em (false :: q) = e.em q := by
  simp [Sala.em, Sala.esq]

theorem Sala.em_true (n p : CStr) (e d : Sala) (q : List Bool) :
    (Sala.node n p e d).em (true :: q) = d.em q := by
  simp [Sala.em, Sala.dir]

theorem Sala.em_nil (s : Sala) : s.em [] = s := by
  cases s <;> rfl

theorem salasAnunciadas_explorarLoop (stdin : List CStr) (atual : Sala) :
    ∀ (arv : PistaNode) (saida : List Evento),
      salasAnunciadas (explorarLoop stdin atual arv saida).saida =
        salasAnunciadas saida ++ (percurso stdin atual).map (fun q => (atual.em q).nome) := by
  refine explorar_induction (motive := fun stdin atual => ∀ (arv : PistaNode)
    (saida : List Evento), salasAnunciadas (explorarLoop stdin atual arv saida).saida =
      salasAnunciadas saida ++ (percurso stdin atual).map (fun q => (atual.em q).nome))
    ?_ ?_ ?_ ?_ ?_ ?_ ?_ stdin atual
  · intro stdin arv saida
    simp [explorarLoop, percurso]
  · intro stdin n p e d hl arv saida
    obtain ⟨resto, fim, h, hfim, _⟩ := explorarLoop_folha stdin n p e d hl arv saida
    rw [h, percurso_folha stdin n p e d hl]
    rcases hfim with rfl | rfl <;>
      simp [salasAnunciadas_append, salasAnunciadas_anunciarSala, Sala.em_nil, Sala.nome,
        salasAnunciadas_outros]
  · intro n p e d hnl arv saida
    rw [explorarLoop_eof n p e d hnl, percurso_eof]
    simp [salasAnunciadas_append, salasAnunciadas_anunciarSala, Sala.em_nil, Sala.nome,
      salasAnunciadas_outros]
  · intro c resto n p e d he hc ih arv saida
    rw [explorarLoop_esq c resto n p e d he hc, percurso_esq c resto n p e d he hc, ih]
    simp [salasAnunciadas_append, salasAnunciadas_anunciarSala, Sala.em_nil, Sala.nome,
      salasAnunciadas_outros, Sala.em_false, Function.comp_def]
  · intro c resto n p e d hd hc ih arv saida
    rw [explorarLoop_dir c resto n p e d hd hc, percurso_dir c resto n p e d hd hc, ih]
    simp [salasAnunciadas_append, salasAnunciadas_anunciarSala, Sala.em_nil, Sala.nome,
      salasAnunciadas_outros, Sala.em_true, Function.comp_def]
  · intro c resto n p e d hnl hf ih arv saida
    obtain ⟨aviso, hav, h⟩ := explorarLoop_fica c resto n p e d hnl hf arv saida
    rw [h, percurso_fica c resto n p e d hnl hf, ih]
    simp only [salasAnunciadas_append, salasAnunciadas_anunciarSala, hav]
    simp [Sala.em_nil, Sala.nome, salasAnunciadas_outros]
  · intro c resto n p e d hnl hc arv saida
    rw [explorarLoop_sair c resto n p e d hnl hc, percurso_sair c resto n p e d hc]
    simp [salasAnunciadas_append, salasAnunciadas_anunciarSala, Sala.em_nil, Sala.nome,
      salasAnunciadas_outros]

theorem arvorePistas_explorarLoop (stdin : List CStr) (atual : Sala) :
    ∀ (arv : PistaNode) (saida : List Evento),
      (explorarLoop stdin atual arv saida).arvorePistas =
        ((percurso stdin atual).map (fun q => (atual.em q).pista)).foldl
          (fun a p => entrarSala p a) arv := by
  refine explorar_induction (motive := fun stdin atual => ∀ (arv : PistaNode)
    (saida : List Evento), (explorarLoop stdin atual arv saida).arvorePistas =
      ((percurso stdin atual).map (fun q => (atual.em q).pista)).foldl
        (fun a p => entrarSala p a) arv)
    ?_ ?_ ?_ ?_ ?_ ?_ ?_ stdin atual
  · intro stdin arv saida
    simp [explorarLoop, percurso]
  · intro stdin n p e d hl arv saida
    obtain ⟨resto, fim, h, hfim, _⟩ := explorarLoop_folha stdin n p e d hl arv saida
    rw [h, percurso_folha stdin n p e d hl]
    simp [Sala.em_nil, Sala.pista]
  · intro n p e d hnl arv saida
    rw [explorarLoop_eof n p e d hnl, percurso_eof]
    simp [Sala.em_nil, Sala.pista]
  · intro c resto n p e d he hc ih arv saida
    rw [explorarLoop_esq c resto n p e d he hc, percurso_esq c resto n p e d he hc, ih]
    simp [Sala.em_nil, Sala.pista, Sala.em_false, Function.comp_def]
  · intro c resto n p e d hd hc ih arv saida
    rw [explorarLoop_dir c resto n p e d hd hc, percurso_dir c resto n p e d hd hc, ih]
    simp [Sala.em_nil, Sala.pista, Sala.em_true, Function.comp_def]
  · intro c resto n p e d hnl hf ih arv saida
    obtain ⟨aviso, hav, h⟩ := explorarLoop_fica c resto n p e d hnl hf arv saida
    rw [h, percurso_fica c resto n p e d hnl hf, ih]
    simp [Sala.em_nil, Sala.pista]
  · intro c resto n p e d hnl hc arv saida
    rw [explorarLoop_sair c resto n p e d hnl hc, percurso_sair c resto n p e d hc]
    simp [Sala.em_nil, Sala.pista]

theorem Sala.cabe_pista (s : Sala) (h : s.cabe = true) : s.pista.length < MAX_PISTA := by
  cases s with
  | nil => simp [Sala.pista, MAX_PISTA]
  | node n p e d =>
    simp only [Sala.cabe, Bool.and_eq_true, decide_eq_true_eq] at h
    exact h.1.1.2

theorem Sala.cabe_em (s : Sala) (q : List Bool) (h : s.cabe = true) : (s.em q).cabe = true := by
  induction q generalizing s with
  | nil => rw [Sala.em_nil]; exact h
  | cons b q ih =>
    cases s with
    | nil =>
      have : (Sala.nil).em (b :: q) = Sala.nil.em q := by cases b <;> simp [Sala.em, Sala.esq, Sala.dir]
      rw [this]; exact ih _ h
    | node n p e d =>
      simp only [Sala.cabe, Bool.and_eq_true, decide_eq_true_eq] at h
      cases b with
      | false => rw [Sala.em_false]; exact ih _ h.1.2
      | true => rw [Sala.em_true]; exact ih _ h.2

theorem mem_exibirPistas_entrarSala (p : CStr) (arv : PistaNode) (x : CStr)
    (hlen : p.length < MAX_PISTA) :
    x ∈ exibirPistas (entrarSala p arv) ↔ x ∈ exibirPistas arv ∨ (x ≠ [] ∧ x = p) := by
  unfold entrarSala
  split_ifs with hp
  · rw [mem_exibirPistas_inserirPista_iff arv p x hp hlen]
    constructor
    · rintro (h | h)
      · exact Or.inl h
      · exact Or.inr ⟨by rw [h]; exact hp, h⟩
    · rintro (h | ⟨_, h⟩)
      · exact Or.inl h
      · exact Or.inr h
  · have hp2 : p = [] := by simpa using hp
    constructor
    · exact Or.inl
    · rintro (h | ⟨h1, h2⟩)
      · exact h
      · exact absurd (h2.trans hp2) h1

theorem mem_exibirPistas_foldl_entrarSala (ps : List CStr) (arv : PistaNode) (x : CStr)
    (hlen : ∀ p ∈ ps, p.length < MAX_PISTA) :
    x ∈ exibirPistas (ps.foldl (fun a p => entrarSala p a) arv) ↔
      x ∈ exibirPistas arv ∨ (x ≠ [] ∧ x ∈ ps) := by
  induction ps generalizing arv with
  | nil => simp
  | cons p ps ih =>
    simp only [List.foldl_cons]
    rw [ih _ (fun q hq => hlen q (List.mem_cons_of_mem _ hq)),
      mem_exibirPistas_entrarSala p arv x (hlen p (List.mem_cons_self _ _))]
    simp only [List.mem_cons]
    tauto

theorem percurso_estrutura (stdin : List CStr) (atual : Sala) :
    (∀ q ∈ percurso stdin atual, (atual.em q).isNull = false) ∧
      (atual.isNull = false → (percurso stdin atual).head? = some []) ∧
      (percurso stdin atual).Chain' (fun p q => q = p ∨ q = p ++ [false] ∨ q = p ++ [true]) ∧
      (percurso stdin atual).Pairwise (fun p q => p <+: q) := by
  refine explorar_induction (motive := fun stdin atual =>
    (∀ q ∈ percurso stdin atual, (atual.em q).isNull = false) ∧
      (atual.isNull = false → (percurso stdin atual).head? = some []) ∧
      (percurso stdin atual).Chain' (fun p q => q = p ∨ q = p ++ [false] ∨ q = p ++ [true]) ∧
      (percurso stdin atual).Pairwise (fun p q => p <+: q))
    ?_ ?_ ?_ ?_ ?_ ?_ ?_ stdin atual
  · intro stdin
    simp [percurso, Sala.isNull]
  · intro stdin n p e d hl
    rw [percurso_folha stdin n p e d hl]
    simp [Sala.em_nil, Sala.isNull]
  · intro n p e d _
    rw [percurso_eof]
    simp [Sala.em_nil, Sala.isNull]
  · intro c resto n p e d he hc ih
    obtain ⟨h1, h2, h3, h4⟩ := ih
    rw [percurso_esq c resto n p e d he hc]
    refine ⟨?_, fun _ => rfl, ?_, ?_⟩
    · intro q hq
      rcases List.mem_cons.mp hq with rfl | hq
      · simp [Sala.em_nil, Sala.isNull]
      · obtain ⟨q2, hq2, rfl⟩ := List.mem_map.mp hq
        rw [Sala.em_false]
        exact h1 q2 hq2
    · rw [List.chain'_cons']
      refine ⟨?_, ?_⟩
      · intro y hy
        rw [List.head?_map, h2 he] at hy
        simp only [Option.map_some', Option.mem_def, Option.some.injEq] at hy
        rw [← hy]
        simp
      · rw [List.chain'_map]
        refine List.Chain'.imp ?_ h3
        intro a b hab
        rcases hab with h | h | h <;> simp [h]
    · rw [List.pairwise_cons]
      refine ⟨fun q _ => List.nil_prefix, ?_⟩
      rw [List.pairwise_map]
      exact List.Pairwise.imp (fun hab => (List.prefix_cons_inj false).mpr hab) h4
  · intro c resto n p e d hd hc ih
    obtain ⟨h1, h2, h3, h4⟩ := ih
    rw [percurso_dir c resto n p e d hd hc]
    refine ⟨?_, fun _ => rfl, ?_, ?_⟩
    · intro q hq
      rcases List.mem_cons.mp hq with rfl | hq
      · simp [Sala.em_nil, Sala.isNull]
      · obtain ⟨q2, hq2, rfl⟩ := List.mem_map.mp hq
        rw [Sala.em_true]
        exact h1 q2 hq2
    · rw [List.chain'_cons']
      refine ⟨?_, ?_⟩
      · intro y hy
        rw [List.head?_map, h2 hd] at hy
        simp only [Option.map_some', Option.mem_def, Option.some.injEq] at hy
        rw [← hy]
        simp
      · rw [List.chain'_map]
        refine List.Chain'.imp ?_ h3
        intro a b hab
        rcases hab with h | h | h <;> simp [h]
    · rw [List.pairwise_cons]
      refine ⟨fun q _ => List.nil_prefix, ?_⟩
      rw [List.pairwise_map]
      exact List.Pairwise.imp (fun hab => (List.prefix_cons_inj true).mpr hab) h4
  · intro c resto n p e d hnl hf ih
    obtain ⟨h1, h2, h3, h4⟩ := ih
    rw [percurso_fica c resto n p e d hnl hf]
    refine ⟨?_, fun _ => rfl, ?_, ?_⟩
    · intro q hq
      rcases List.mem_cons.mp hq with rfl | hq
      · simp [Sala.em_nil, Sala.isNull]
      · exact h1 q hq
    · rw [List.chain'_cons']
      refine ⟨?_, h3⟩
      intro y hy
      rw [h2 rfl] at hy
      simp only [Option.mem_def, Option.some.injEq] at hy
      exact Or.inl hy.symm
    · rw [List.pairwise_cons]
      exact ⟨fun q _ => List.nil_prefix, h4⟩
  · intro c resto n p e d _ hc
    rw [percurso_sair c resto n p e d hc]
    simp [Sala.em_nil, Sala.isNull]

theorem explorarSalas_eq_explorarLoop (raiz : Sala) (arv : PistaNode) (stdin : List CStr) :
    explorarSalas raiz arv stdin = explorarLoop stdin raiz arv [] := by
  cases raiz with
  | nil => simp [explorarSalas, explorarLoop, Sala.isNull]
  | node n p e d => simp [explorarSalas, Sala.isNull]

/-- C13. For every room tree whose texts fit their buffers and every command sequence, with
`percurso` listing the rooms entered (each by the turns leading to it from the root, in the
order in which the output announces them): the clues in the ledger when `explorarSalas` ends,
starting from the empty ledger, are exactly the non-empty clue texts of the rooms entered; the
rooms entered exist, start at the root, and each is the room entered before it or one of its
two children, so that a room entered later always lies at or below a room entered earlier: it
is never its parent and never its sibling. -/
theorem explorar_ledger_is_clues_of_downward_path (raiz : Sala) (stdin : List CStr)
    (hcabe : raiz.cabe = true) :
    salasAnunciadas (explorarSalas raiz .nil stdin).saida =
        (percurso stdin raiz).map (fun q => (raiz.em q).nome) ∧
      (∀ x, x ∈ exibirPistas (explorarSalas raiz .nil stdin).arvorePistas ↔
        x ≠ [] ∧ ∃ q ∈ percurso stdin raiz, (raiz.em q).pista = x) ∧
      (∀ q ∈ percurso stdin raiz, (raiz.em q).isNull = false) ∧
      (raiz.isNull = false → (percurso stdin raiz).head? = some []) ∧
      (percurso stdin raiz).Chain' (fun p q => q = p ∨ q = p ++ [false] ∨ q = p ++ [true]) ∧
      (percurso stdin raiz).Pairwise (fun p q => p <+: q) ∧
      (percurso stdin raiz).Pairwise (fun p q => ∀ b, p ≠ q ++ [b]) ∧
      (percurso stdin raiz).Pairwise (fun p q => ∀ r b, p = r ++ [b] → q ≠ r ++ [!b]) := by
  obtain ⟨h1, h2, h3, h4⟩ := percurso_estrutura stdin raiz
  refine ⟨?_, ?_, h1, h2, h3, h4, ?_, ?_⟩
  · rw [explorarSalas_eq_explorarLoop, salasAnunciadas_explorarLoop]
    rfl
  · intro x
    rw [explorarSalas_eq_explorarLoop, arvorePistas_explorarLoop,
      mem_exibirPistas_foldl_entrarSala]
    · simp only [exibirPistas, List.not_mem_nil, false_or, List.mem_map]
    · intro p hp
      obtain ⟨q, _, rfl⟩ := List.mem_map.mp hp
      exact Sala.cabe_pista _ (Sala.cabe_em raiz q hcabe)
  · refine List.Pairwise.imp ?_ h4
    intro p q hpq b hb
    have := hpq.length_le
    rw [hb, List.length_append] at this
    simp at this
  · refine List.Pairwise.imp ?_ h4
    intro p q hpq r b hp hq
    have hlen : p.length = q.length := by rw [hp, hq]; simp
    have heq := hpq.eq_of_length hlen
    rw [hp, hq] at heq
    have := List.append_cancel_left heq
    cases b <;> simp at this

set_option maxRecDepth 100000 in
theorem explorar_ledger_is_clues_of_downward_path_witness :
    mansao.cabe = true ∧
      percurso [cstr "x\n", cstr "d\n", cstr "e\n", cstr "d\n"] mansao =
        [[], [], [true], [true, false]] ∧
      ∀ x, x ∈ exibirPistas (explorarSalas mansao .nil
          [cstr "x\n", cstr "d\n", cstr "e\n", cstr "d\n"]).arvorePistas ↔
        x ≠ [] ∧ ∃ q ∈ percurso [cstr "x\n", cstr "d\n", cstr "e\n", cstr "d\n"] mansao,
          (mansao.em q).pista = x :=
  ⟨by decide, by decide,
    (explorar_ledger_is_clues_of_downward_path mansao
      [cstr "x\n", cstr "d\n", cstr "e\n", cstr "d\n"] (by decide)).2.1⟩

/-! ## The mansion of `main` -/

theorem finais_entrarSala_idem (n p : CStr) (e d : Sala) (arv : PistaNode)
    (hlen : p.length < MAX_PISTA) :
    finais (.node n p e d) (entrarSala p arv) = finais (.node n p e d) arv := by
  simp only [finais, entrarSala_idem p arv hlen]

theorem explorarLoop_arvore_mem_finais (stdin : List CStr) (atual : Sala) :
    atual.cabe = true → ∀ (arv : PistaNode) (saida : List Evento),
      (explorarLoop stdin atual arv saida).arvorePistas ∈ finais atual arv := by
  refine explorar_induction (motive := fun stdin atual => atual.cabe = true →
    ∀ (arv : PistaNode) (saida : List Evento),
      (explorarLoop stdin atual arv saida).arvorePistas ∈ finais atual arv)
    ?_ ?_ ?_ ?_ ?_ ?_ ?_ stdin atual
  · intro stdin _ arv saida
    simp [explorarLoop, finais]
  · intro stdin n p e d hl _ arv saida
    obtain ⟨resto, fim, h, _, _⟩ := explorarLoop_folha stdin n p e d hl arv saida
    rw [h]
    simp [finais]
  · intro n p e d hnl _ arv saida
    rw [explorarLoop_eof n p e d hnl]
    simp [finais]
  · intro c resto n p e d he hc ih hcabe arv saida
    rw [explorarLoop_esq c resto n p e d he hc]
    simp only [Sala.cabe, Bool.and_eq_true, decide_eq_true_eq] at hcabe
    simp only [finais, List.mem_cons, List.mem_append]
    exact Or.inr (Or.inl (ih hcabe.1.2 _ _))
  · intro c resto n p e d hd hc ih hcabe arv saida
    rw [explorarLoop_dir c resto n p e d hd hc]
    simp only [Sala.cabe, Bool.and_eq_true, decide_eq_true_eq] at hcabe
    simp only [finais, List.mem_cons, List.mem_append]
    exact Or.inr (Or.inr (ih hcabe.2 _ _))
  · intro c resto n p e d hnl hf ih hcabe arv saida
    obtain ⟨aviso, _, h⟩ := explorarLoop_fica c resto n p e d hnl hf arv saida
    rw [h, ← finais_entrarSala_idem n p e d arv
      (Sala.cabe_pista (.node n p e d) hcabe)]
    exact ih hcabe _ _
  · intro c resto n p e d hnl hc _ arv saida
    rw [explorarLoop_sair c resto n p e d hnl hc]
    simp [finais]

theorem verificarSuspeitoFinal_eq_zero_of_no_match (t : PistaNode) (ht : HashTable) (a : CStr)
    (h : ∀ p ∈ exibirPistas t, encontrarSuspeito ht p ≠ some a) :
    verificarSuspeitoFinal t ht a = 0 := by
  cases t with
  | nil => rfl
  | node k l r =>
    simp only [verificarSuspeitoFinal]
    rw [bst_traverse_inorder_contador]
    simp only [Nat.zero_add, List.countP_eq_zero, decide_eq_true_eq]
    exact h

theorem veredito_sustentada_iff (qtd : Nat) : veredito qtd = .sustentada ↔ 2 ≤ qtd := by
  unfold veredito
  split_ifs with h
  · simp; omega
  · simp; omega


set_option maxRecDepth 1000000 in
theorem mansao_finais_contagem (a : CStr) :
    ∀ t ∈ finais mansao .nil, verificarSuspeitoFinal t tabela a ≤ 3 ∧
      (a = cstr "Prof. Plum" → verificarSuspeitoFinal t tabela a ≤ 1) ∧
      (verificarSuspeitoFinal t tabela a ≤ 1 ∨ a = cstr "Sr. Black" ∨ a = cstr "Sra. White" ∨
        a = cstr "Jovem Green") := by
  by_cases hB : a = cstr "Sr. Black"
  · subst hB; decide
  by_cases hW : a = cstr "Sra. White"
  · subst hW; decide
  by_cases hG : a = cstr "Jovem Green"
  · subst hG; decide
  by_cases hP : a = cstr "Prof. Plum"
  · subst hP; decide
  have hall : ∀ t ∈ finais mansao .nil, ∀ p ∈ exibirPistas t,
      encontrarSuspeito tabela p ∈ [some (cstr "Sr. Black"), some (cstr "Sra. White"),
        some (cstr "Jovem Green"), some (cstr "Prof. Plum")] := by decide
  intro t ht
  have h0 : verificarSuspeitoFinal t tabela a = 0 := by
    apply verificarSuspeitoFinal_eq_zero_of_no_match
    intro p hp heq
    have := hall t ht p hp
    rw [heq] at this
    simp only [List.mem_cons, Option.some.injEq, List.mem_singleton, List.not_mem_nil,
      or_false] at this
    rcases this with h | h | h | h
    · exact hB h
    · exact hW h
    · exact hG h
    · exact hP h
  rw [h0]
  exact ⟨by omega, fun _ => by omega, Or.inl (by omega)⟩

theorem mansao_arvore_mem_finais (stdin : List CStr) :
    (explorarSalas mansao .nil stdin).arvorePistas ∈ finais mansao .nil := by
  rw [explorarSalas_eq_explorarLoop]
  exact explorarLoop_arvore_mem_finais stdin mansao (by decide) .nil []

set_option maxRecDepth 1000000 in
/-- C20. For the mansion and the bindings built in `main`, whatever the command sequence and
the accused name: the count is at most 3; it is at most 1 for "Prof. Plum" and for every
name other than "Sr. Black", "Sra. White" and "Jovem Green"; and the names for which some
command sequence gives a sustained verdict (count of 2 or more) are exactly those three. -/
theorem mansion_sustained_suspects :
    (∀ (stdin : List CStr) (acusado : CStr),
        verificarSuspeitoFinal (explorarSalas mansao .nil stdin).arvorePistas tabela acusado
          ≤ 3) ∧
      (∀ stdin : List CStr,
        verificarSuspeitoFinal (explorarSalas mansao .nil stdin).arvorePistas tabela
          (cstr "Prof. Plum") ≤ 1) ∧
      (∀ (stdin : List CStr) (acusado : CStr),
        verificarSuspeitoFinal (explorarSalas mansao .nil stdin).arvorePistas tabela acusado
            ≤ 1 ∨
          acusado = cstr "Sr. Black" ∨ acusado = cstr "Sra. White" ∨
          acusado = cstr "Jovem Green") ∧
      (∀ acusado : CStr,
        (∃ stdin : List CStr,
          veredito (verificarSuspeitoFinal (explorarSalas mansao .nil stdin).arvorePistas
            tabela acusado) = Veredito.sustentada) ↔
        (acusado = cstr "Sr. Black" ∨ acusado = cstr "Sra. White" ∨
          acusado = cstr "Jovem Green")) := by
  refine ⟨fun stdin a => ?_, fun stdin => ?_, fun stdin a => ?_, fun a => ⟨?_, ?_⟩⟩
  · exact (mansao_finais_contagem a _ (mansao_arvore_mem_finais stdin)).1
  · exact (mansao_finais_contagem _ _ (mansao_arvore_mem_finais stdin)).2.1 rfl
  · exact (mansao_finais_contagem a _ (mansao_arvore_mem_finais stdin)).2.2
  · rintro ⟨stdin, hv⟩
    rw [veredito_sustentada_iff] at hv
    rcases (mansao_finais_contagem a _ (mansao_arvore_mem_finais stdin)).2.2 with h | h
    · omega
    · exact h
  · rintro (h | h | h)
    · subst h
      exact ⟨[cstr "d\n", cstr "d\n"], by decide⟩
    · subst h
      exact ⟨[cstr "e\n", cstr "d\n"], by decide⟩
    · subst h
      exact ⟨[cstr "d\n", cstr "e\n"], by decide⟩
end DetetiveQuest

namespace TetrisStack

/-! ## The piece queue and the reserve stack -/


theorem distintas_troca (fp pp : Int → Peca) (topo c a b : Int)
    (h : Distintas fp pp topo c) (ha0 : 0 ≤ a) (ha5 : a < 5) (hb0 : 0 ≤ b) (hbt : b ≤ topo) :
    Distintas (atribuir fp a (pp b)) (atribuir pp b (fp a)) topo c := by
  obtain ⟨h1, h2, h3, h4, h5⟩ := h
  refine ⟨?_, ?_, ?_, ?_, ?_⟩
  · intro i j hi0 hi5 hj0 hj5 hij
    simp only [atribuir]
    split_ifs <;>
      first
      | (exfalso; omega)
      | exact h1 _ _ (by omega) (by omega) (by omega) (by omega) (by omega)
      | exact h3 _ _ (by omega) (by omega) (by omega) (by omega)
      | exact (h3 _ _ (by omega) (by omega) (by omega) (by omega)).symm
  · intro i j hi0 hit hj0 hjt hij
    simp only [atribuir]
    split_ifs <;>
      first
      | (exfalso; omega)
      | exact h2 _ _ (by omega) (by omega) (by omega) (by omega) (by omega)
      | exact h3 _ _ (by omega) (by omega) (by omega) (by omega)
      | exact (h3 _ _ (by omega) (by omega) (by omega) (by omega)).symm
  · intro i j hi0 hi5 hj0 hjt
    simp only [atribuir]
    split_ifs <;>
      first
      | exact h3 _ _ (by omega) (by omega) (by omega) (by omega)
      | exact (h3 _ _ (by omega) (by omega) (by omega) (by omega)).symm
      | exact h1 _ _ (by omega) (by omega) (by omega) (by omega) (by omega)
      | exact h2 _ _ (by omega) (by omega) (by omega) (by omega) (by omega)
  · intro i hi0 hi5
    simp only [atribuir]
    split_ifs <;>
      first
      | exact h4 _ (by omega) (by omega)
      | exact h5 _ (by omega) (by omega)
  · intro j hj0 hjt
    simp only [atribuir]
    split_ifs <;>
      first
      | exact h4 _ (by omega) (by omega)
      | exact h5 _ (by omega) (by omega)

theorem distintas_nova (fp pp : Int → Peca) (topo c a : Int) (t : Nat)
    (h : Distintas fp pp topo c) (ha0 : 0 ≤ a) (ha5 : a < 5) :
    Distintas (atribuir fp a ⟨t, c⟩) pp topo (c + 1) := by
  obtain ⟨h1, h2, h3, h4, h5⟩ := h
  refine ⟨?_, h2, ?_, ?_, ?_⟩
  · intro i j hi0 hi5 hj0 hj5 hij
    simp only [atribuir]
    split_ifs with hi hj hj
    · exfalso; omega
    · have := h4 j hj0 hj5
      simp only; omega
    · have := h4 i hi0 hi5
      simp only; omega
    · exact h1 i j hi0 hi5 hj0 hj5 hij
  · intro i j hi0 hi5 hj0 hjt
    simp only [atribuir]
    split_ifs with hi
    · have := h5 j hj0 hjt
      simp only; omega
    · exact h3 i j hi0 hi5 hj0 hjt
  · intro i hi0 hi5
    simp only [atribuir]
    split_ifs with hi
    · have := h4 a ha0 ha5
      simp only; omega
    · have := h4 i hi0 hi5
      omega
  · intro j hj0 hjt
    have := h5 j hj0 hjt
    omega

theorem distintas_reserva (fp pp : Int → Peca) (topo c a : Int) (t : Nat)
    (h : Distintas fp pp topo c) (ha0 : 0 ≤ a) (ha5 : a < 5) :
    Distintas (atribuir fp a ⟨t, c⟩) (atribuir pp (topo + 1) (fp a)) (topo + 1) (c + 1) := by
  obtain ⟨h1, h2, h3, h4, h5⟩ := h
  refine ⟨?_, ?_, ?_, ?_, ?_⟩
  · intro i j hi0 hi5 hj0 hj5 hij
    simp only [atribuir]
    split_ifs with hi hj hj
    · exfalso; omega
    · have := h4 j hj0 hj5
      simp only; omega
    · have := h4 i hi0 hi5
      simp only; omega
    · exact h1 i j hi0 hi5 hj0 hj5 hij
  · intro i j hi0 hit hj0 hjt hij
    simp only [atribuir]
    split_ifs with hi hj hj
    · exfalso; omega
    · exact h3 a j ha0 ha5 hj0 (by omega)
    · exact (h3 a i ha0 ha5 hi0 (by omega)).symm
    · exact h2 i j hi0 (by omega) hj0 (by omega) hij
  · intro i j hi0 hi5 hj0 hjt
    simp only [atribuir]
    split_ifs with hi hj hj
    · have := h4 a ha0 ha5
      simp only; omega
    · have := h5 j hj0 (by omega)
      simp only; omega
    · exact h1 i a hi0 hi5 ha0 ha5 hi
    · exact h3 i j hi0 hi5 hj0 (by omega)
  · intro i hi0 hi5
    simp only [atribuir]
    split_ifs with hi
    · have := h4 a ha0 ha5
      simp only; omega
    · have := h4 i hi0 hi5
      omega
  · intro j hj0 hjt
    simp only [atribuir]
    split_ifs with hj
    · have := h4 a ha0 ha5
      omega
    · have := h5 j hj0 (by omega)
      omega

theorem distintas_usa (fp pp : Int → Peca) (topo c : Int) (h : Distintas fp pp topo c) :
    Distintas fp pp (topo - 1) c := by
  obtain ⟨h1, h2, h3, h4, h5⟩ := h
  exact ⟨h1, fun i j hi0 hit hj0 hjt hij => h2 i j hi0 (by omega) hj0 (by omega) hij,
    fun i j hi0 hi5 hj0 hjt => h3 i j hi0 hi5 hj0 (by omega), h4,
    fun j hj0 hjt => h5 j hj0 (by omega)⟩

theorem tmod_fila (x : Int) (h : 0 ≤ x) : x.tmod 5 = x % 5 :=
  Int.tmod_eq_emod h (by decide)

theorem invariante_jogar (rand : Nat → Nat) (st : Jogo) (h : Invariante st) :
    Invariante (enfileirarNova rand { st with fila := (desenfileirar st.fila).2 }) := by
  obtain ⟨⟨fp, fr, tr, q⟩, ⟨pp, topo⟩, c, k⟩ := st
  simp only [Invariante] at h
  obtain ⟨hq, hf0, hf5, htr, ht0, ht2, hd⟩ := h
  subst hq htr
  have e1 : (fr + 1).tmod 5 = (fr + 1) % 5 := tmod_fila _ (by omega)
  have e2 : ((fr + 4) % 5 + 1).tmod 5 = fr := by
    rw [tmod_fila _ (by omega)]; omega
  simp only [Invariante, enfileirarNova, desenfileirar, enfileirar, filaVazia, filaCheia,
    TAM_FILA, gerarPeca]
  simp
  rw [e1, e2]
  exact ⟨by omega, by omega, by omega, ht0, ht2, distintas_nova fp pp topo c fr _ hd hf0 hf5⟩

theorem invariante_reservar (rand : Nat → Nat) (st : Jogo) (h : Invariante st)
    (hnc : pilhaCheia st.pilha = false) :
    Invariante (enfileirarNova rand
      { st with fila := (desenfileirar st.fila).2,
                pilha := empilhar st.pilha (desenfileirar st.fila).1 }) := by
  obtain ⟨⟨fp, fr, tr, q⟩, ⟨pp, topo⟩, c, k⟩ := st
  simp only [Invariante] at h
  obtain ⟨hq, hf0, hf5, htr, ht0, ht2, hd⟩ := h
  subst hq htr
  have e1 : (fr + 1).tmod 5 = (fr + 1) % 5 := tmod_fila _ (by omega)
  have e2 : ((fr + 4) % 5 + 1).tmod 5 = fr := by
    rw [tmod_fila _ (by omega)]; omega
  have ht : topo ≠ 2 := by
    simpa [pilhaCheia, TAM_PILHA] using hnc
  simp only [Invariante, enfileirarNova, desenfileirar, enfileirar, empilhar, filaVazia,
    filaCheia, pilhaCheia, TAM_FILA, TAM_PILHA, gerarPeca]
  simp [ht]
  rw [e1, e2]
  exact ⟨by omega, by omega, by omega, by omega, by omega,
    distintas_reserva fp pp topo c fr _ hd hf0 hf5⟩

theorem invariante_usar (st : Jogo) (h : Invariante st) (hnv : pilhaVazia st.pilha = false) :
    Invariante { st with pilha := (desempilhar st.pilha).2 } := by
  obtain ⟨⟨fp, fr, tr, q⟩, ⟨pp, topo⟩, c, k⟩ := st
  simp only [Invariante] at h
  obtain ⟨hq, hf0, hf5, htr, ht0, ht2, hd⟩ := h
  have ht : topo ≠ -1 := by
    simpa [pilhaVazia] using hnv
  simp only [Invariante, desempilhar, pilhaVazia]
  simp [ht]
  exact ⟨hq, hf0, hf5, htr, by omega, by omega, distintas_usa fp pp topo c hd⟩

theorem invariante_trocar (st : Jogo) (h : Invariante st) :
    Invariante { st with fila := (trocarTopoComFrente st.fila st.pilha).1,
                         pilha := (trocarTopoComFrente st.fila st.pilha).2 } := by
  obtain ⟨⟨fp, fr, tr, q⟩, ⟨pp, topo⟩, c, k⟩ := st
  simp only [Invariante] at h
  obtain ⟨hq, hf0, hf5, htr, ht0, ht2, hd⟩ := h
  subst hq
  by_cases ht : topo = -1
  · subst ht
    simp only [Invariante, trocarTopoComFrente, pilhaVazia, filaVazia]
    simp
    exact ⟨hf0, hf5, htr, hd⟩
  · simp only [Invariante, trocarTopoComFrente, pilhaVazia, filaVazia]
    simp [ht]
    exact ⟨hf0, hf5, htr, ht0, ht2,
      distintas_troca fp pp topo c fr topo hd hf0 hf5 (by omega) (by omega)⟩

theorem invariante_multipla (st : Jogo) (h : Invariante st) :
    Invariante { st with fila := (trocaMultipla st.fila st.pilha).1,
                         pilha := (trocaMultipla st.fila st.pilha).2 } := by
  obtain ⟨⟨fp, fr, tr, q⟩, ⟨pp, topo⟩, c, k⟩ := st
  simp only [Invariante] at h
  obtain ⟨hq, hf0, hf5, htr, ht0, ht2, hd⟩ := h
  subst hq
  by_cases ht : topo < 2
  · simp only [Invariante, trocaMultipla]
    simp [ht]
    exact ⟨hf0, hf5, htr, ht0, ht2, hd⟩
  · have ht2e : topo = 2 := by omega
    subst ht2e
    have e0 : (fr + 0).tmod 5 = (fr + 0) % 5 := tmod_fila _ (by omega)
    have e1 : (fr + 1).tmod 5 = (fr + 1) % 5 := tmod_fila _ (by omega)
    have e2 : (fr + 2).tmod 5 = (fr + 2) % 5 := tmod_fila _ (by omega)
    simp only [Invariante, trocaMultipla, trocaPasso, TAM_FILA, List.foldl]
    simp
    refine ⟨hf0, hf5, htr, ?_⟩
    have d1 := distintas_troca fp pp 2 c ((fr + 0).tmod 5) (2 - 0) hd
      (by rw [e0]; omega) (by rw [e0]; omega) (by omega) (by omega)
    have d2 := distintas_troca _ _ 2 c ((fr + 1).tmod 5) (2 - 1) d1
      (by rw [e1]; omega) (by rw [e1]; omega) (by omega) (by omega)
    have d3 := distintas_troca _ _ 2 c ((fr + 2).tmod 5) (2 - 2) d2
      (by rw [e2]; omega) (by rw [e2]; omega) (by omega) (by omega)
    simpa using d3

theorem invariante_passo (rand : Nat → Nat) (st : Jogo) (opcao : Int) (h : Invariante st) :
    Invariante (passo rand st opcao) := by
  unfold passo
  split_ifs <;>
    first
    | exact h
    | exact invariante_jogar rand st h
    | exact invariante_reservar rand st h (by simp_all)
    | exact invariante_usar st h (by simp_all)
    | exact invariante_trocar st h
    | exact invariante_multipla st h

theorem invariante_executar (rand : Nat → Nat) (opcoes : List Int) (st : Jogo)
    (h : Invariante st) : Invariante (executar rand st opcoes) := by
  induction opcoes generalizing st with
  | nil => exact h
  | cons o os ih =>
    simp only [executar]
    split_ifs with h0
    · exact ih _ (invariante_passo rand st o h)
    · exact invariante_passo rand st o h

theorem invariante_inicio (rand : Nat → Nat) (fila0 : Fila) (pilha0 : Pilha) :
    Invariante (inicio rand fila0 pilha0) := by
  have hr : List.range TAM_FILA.toNat = [0, 1, 2, 3, 4] := by decide
  have t1 : Int.tmod 1 5 = 1 := by decide
  have t2 : Int.tmod 2 5 = 2 := by decide
  have t3 : Int.tmod 3 5 = 3 := by decide
  have t4 : Int.tmod 4 5 = 4 := by decide
  simp only [inicio, hr, List.foldl, enfileirarNova, enfileirar, filaCheia, inicializarFila,
    inicializarPilha, TAM_FILA, gerarPeca, Invariante]
  simp [t1, t2, t3, t4]
  refine ⟨?_, ?_, ?_, ?_, ?_⟩
  · intro i j hi0 hi5 hj0 hj5 hij
    interval_cases i <;> interval_cases j <;> simp [atribuir] at hij ⊢
  · intro i j hi0 hit hj0 hjt
    omega
  · intro i j hi0 hi5 hj0 hjt
    omega
  · intro i hi0 hi5
    interval_cases i <;> simp [atribuir]
  · intro j hj0 hjt
    omega

theorem idsGuardados_eq (st : Jogo) :
    idsGuardados st =
      (List.range st.fila.quantidade.toNat).map
          (fun (i : Nat) => (st.fila.pecas ((st.fila.frente + (i : Int)).tmod 5)).id) ++
        (List.range (st.pilha.topo + 1).toNat).map
          (fun (i : Nat) => (st.pilha.pecas (st.pilha.topo - (i : Int))).id) := by
  simp only [idsGuardados, exibirEstado, TAM_FILA, List.map_append, List.map_map]
  congr 1
  split_ifs with hv
  · have ht : st.pilha.topo = -1 := by simpa [pilhaVazia] using hv
    rw [ht]
    rfl
  · simp [List.map_map, Function.comp_def]

theorem ids_de_invariante (st : Jogo) (h : Invariante st) :
    (idsGuardados st).Nodup ∧ (∀ x ∈ idsGuardados st, 0 ≤ x ∧ x < st.idCounter) ∧
      (exibirEstado st.fila st.pilha).1.length = 5 ∧
      (exibirEstado st.fila st.pilha).2.length ≤ 3 := by
  obtain ⟨hq, hf0, hf5, htr, ht0, ht2, h1, h2, h3, h4, h5⟩ := h
  have hcell : ∀ i : Nat, i < 5 →
      0 ≤ (st.fila.frente + (i : Int)).tmod 5 ∧ (st.fila.frente + (i : Int)).tmod 5 < 5 := by
    intro i hi
    rw [tmod_fila _ (by omega)]
    omega
  have hcellne : ∀ i j : Nat, i < 5 → j < 5 → i ≠ j →
      (st.fila.frente + (i : Int)).tmod 5 ≠ (st.fila.frente + (j : Int)).tmod 5 := by
    intro i j hi hj hij
    rw [tmod_fila _ (by omega), tmod_fila _ (by omega)]
    omega
  refine ⟨?_, ?_, ?_, ?_⟩
  · rw [idsGuardados_eq, hq, List.nodup_append]
    refine ⟨?_, ?_, ?_⟩
    · refine List.Nodup.map_on ?_ (List.nodup_range _)
      intro x hx y hy hxy
      rw [List.mem_range] at hx hy
      have hx5 : x < 5 := by simpa using hx
      have hy5 : y < 5 := by simpa using hy
      by_contra hne
      exact h1 _ _ (hcell x hx5).1 (hcell x hx5).2 (hcell y hy5).1 (hcell y hy5).2
        (hcellne x y hx5 hy5 hne) hxy
    · refine List.Nodup.map_on ?_ (List.nodup_range _)
      intro x hx y hy hxy
      rw [List.mem_range] at hx hy
      by_contra hne
      exact h2 _ _ (by omega) (by omega) (by omega) (by omega) (by omega) hxy
    · intro a ha hb
      rw [List.mem_map] at ha hb
      obtain ⟨x, hx, rfl⟩ := ha
      obtain ⟨y, hy, hxy⟩ := hb
      rw [List.mem_range] at hx hy
      have hx5 : x < 5 := by simpa using hx
      exact h3 _ _ (hcell x hx5).1 (hcell x hx5).2 (by omega) (by omega) hxy.symm
  · intro a ha
    rw [idsGuardados_eq, hq, List.mem_append, List.mem_map, List.mem_map] at ha
    rcases ha with ⟨x, hx, rfl⟩ | ⟨y, hy, rfl⟩
    · rw [List.mem_range] at hx
      have hx5 : x < 5 := by simpa using hx
      exact h4 _ (hcell x hx5).1 (hcell x hx5).2
    · rw [List.mem_range] at hy
      exact h5 _ (by omega) (by omega)
  · simp [exibirEstado, hq]
  · simp only [exibirEstado]
    split_ifs
    · simp
    · simp only [List.length_map, List.length_range]
      omega

/-- C21. In every state the loop of `main` reaches from the initial fill, whatever the
contents the two arrays start with, the results of `rand` and the options read (any numbers,
the loop stopping at the first 0): the pieces held in the queue and in the reserve stack have
pairwise distinct ids, each at least 0 and below the id counter, the queue holds exactly 5
pieces and the stack at most 3. The id counter is an integer without a bound. -/
theorem piece_ids_unique (rand : Nat → Nat) (fila0 : Fila) (pilha0 : Pilha)
    (opcoes : List Int) :
    (idsGuardados (executar rand (inicio rand fila0 pilha0) opcoes)).Nodup ∧
      (∀ x ∈ idsGuardados (executar rand (inicio rand fila0 pilha0) opcoes),
        0 ≤ x ∧ x < (executar rand (inicio rand fila0 pilha0) opcoes).idCounter) ∧
      (executar rand (inicio rand fila0 pilha0) opcoes).fila.quantidade = 5 ∧
      (exibirEstado (executar rand (inicio rand fila0 pilha0) opcoes).fila
        (executar rand (inicio rand fila0 pilha0) opcoes).pilha).1.length = 5 ∧
      (exibirEstado (executar rand (inicio rand fila0 pilha0) opcoes).fila
        (executar rand (inicio rand fila0 pilha0) opcoes).pilha).2.length ≤ 3 := by
  have hinv := invariante_executar rand opcoes _ (invariante_inicio rand fila0 pilha0)
  obtain ⟨h1, h2, h3, h4⟩ := ids_de_invariante _ hinv
  exact ⟨h1, h2, hinv.1, h3, h4⟩
end TetrisStack
